import Mathlib

set_option maxRecDepth 100000

/-!
Verification of the article discovery-and-curation pipeline of reroute-nj
(`tools/scrape-coverage.py`).  The Python functions are shallowly embedded
as executable Lean definitions over `String` / `List Char`; network calls
(the Firecrawl scraper and the HTTP HEAD check) are modelled as oracle
functions passed explicitly, so that every pipeline decision that the
source makes on the oracle's result is reproduced faithfully.
-/

namespace RerouteNJ

/-! ## Python string primitives

Models of the Python `str` operations the scraper uses: substring test
(`in`), `str.replace`, `str.lower` (ASCII), `rstrip`/`strip`, `[-n:]`,
whitespace `split()`.
-/

/-- Model of Python `needle in hay` on the underlying character lists. -/
def containsSeg (needle : List Char) : List Char → Bool
  | [] => needle.isEmpty
  | c :: t => needle.isPrefixOf (c :: t) || containsSeg needle t

/-- Python `needle in hay` for strings. -/
def pyIn (needle hay : String) : Bool :=
  containsSeg needle.data hay.data

/-- Replacement engine for `str.replace`, fuelled by the haystack length:
replaces non-overlapping occurrences left to right. -/
def replaceGo (old new : List Char) : Nat → List Char → List Char
  | 0, hay => hay
  | _ + 1, [] => []
  | n + 1, c :: t =>
    if old.isPrefixOf (c :: t) then new ++ replaceGo old new n ((c :: t).drop old.length)
    else c :: replaceGo old new n t

/-- Model of Python `s.replace(old, new)` (all occurrences; an empty `old`
inserts `new` at every character boundary, as Python does). -/
def pyReplace (s old new : String) : String :=
  if old.data.isEmpty then
    String.mk (new.data ++ s.data.flatMap (fun c => c :: new.data))
  else
    String.mk (replaceGo old.data new.data s.data.length s.data)

/-- Python `path.rstrip("/")`: remove every trailing slash. -/
def rstripSlash (l : List Char) : List Char :=
  (l.reverse.dropWhile (fun c => c = '/')).reverse

/-- Python `s.strip("-")`: remove leading and trailing hyphens. -/
def stripDash (l : List Char) : List Char :=
  (((l.dropWhile (fun c => c = '-')).reverse.dropWhile (fun c => c = '-'))).reverse

/-- Python `s.strip()`: remove leading and trailing whitespace. -/
def stripWs (l : List Char) : List Char :=
  (((l.dropWhile Char.isWhitespace).reverse.dropWhile Char.isWhitespace)).reverse

/-- Python `s[-n:]`: the last `n` characters. -/
def takeRight (n : Nat) (l : List Char) : List Char :=
  l.drop (l.length - n)

/-- Accumulator pass for whitespace `split()`. -/
def splitWsGo : List Char → List Char → List (List Char)
  | [], acc => if acc.isEmpty then [] else [acc.reverse]
  | c :: t, acc =>
    if c.isWhitespace then
      if acc.isEmpty then splitWsGo t [] else acc.reverse :: splitWsGo t []
    else splitWsGo t (c :: acc)

/-- Python `s.split()`: split on whitespace runs, dropping empty pieces. -/
def splitWs (l : List Char) : List (List Char) :=
  splitWsGo l []

/-- A lowercase ASCII letter or digit, the class `[a-z0-9]` of the
slug regexes in `make_article_id`. -/
def isLowerAlnum (c : Char) : Bool :=
  ('a' ≤ c && c ≤ 'z') || ('0' ≤ c && c ≤ '9')

/-- Pass for `re.sub(r"[^a-z0-9]+", "-", s)`: the flag records whether the
previous character already belonged to a replaced run. -/
def collapseGo : Bool → List Char → List Char
  | _, [] => []
  | inRun, c :: t =>
    if isLowerAlnum c then c :: collapseGo false t
    else if inRun then collapseGo true t
    else '-' :: collapseGo true t

/-- Model of `re.sub(r"[^a-z0-9]+", "-", s)`: each maximal run of
characters outside `[a-z0-9]` becomes a single hyphen. -/
def collapseNonAlnum (l : List Char) : List Char :=
  collapseGo false l

/-- Model of `re.sub(r"[^a-z0-9\s]", "", s)`: keep only `[a-z0-9]` and
whitespace. -/
def keepAlnumSpace (l : List Char) : List Char :=
  l.filter (fun c => isLowerAlnum c || c.isWhitespace)

/-- Python truthiness of an optional string (`None` and `""` are falsy). -/
def optTruthy : Option String → Bool
  | none => false
  | some s => s ≠ ""

/-- Python `a or b` for strings (empty string is falsy). -/
def pyOrStr (a b : String) : String :=
  if a = "" then b else a

/-- Python `s.lower()` (ASCII model), as a structural map so that concrete
instances reduce in the kernel. -/
def lowerStr (s : String) : String :=
  String.mk (s.data.map Char.toLower)

/-- Python `s.startswith(pre)`. -/
def pyStartsWith (s pre : String) : Bool :=
  pre.data.isPrefixOf s.data

/-- Lexicographic strict comparison of character lists — Python `<` on
strings. -/
def ltChars : List Char → List Char → Bool
  | [], [] => false
  | [], _ :: _ => true
  | _ :: _, [] => false
  | a :: as, b :: bs => if a < b then true else if b < a then false else ltChars as bs

/-- Python `s.split("\n")` (empty pieces kept). -/
def splitOnNlGo : List Char → List Char → List (List Char)
  | [], acc => [acc.reverse]
  | c :: t, acc => if c = '\n' then acc.reverse :: splitOnNlGo t [] else splitOnNlGo t (c :: acc)

def splitOnNl (s : String) : List (List Char) :=
  splitOnNlGo s.data []

/-- Python `" ".join(parts)`. -/
def joinSpace : List (List Char) → List Char
  | [] => []
  | [x] => x
  | x :: xs => x ++ ' ' :: joinSpace xs

/-! ## `urllib.parse.urlparse` and the URL helpers

`normalize_url`, `is_blocked_site` and `is_excluded_url` all go through
`urlparse`; the model reproduces CPython's `urlsplit` (scheme split,
`//`-netloc split, fragment split at the first `#`, query split at the
first `?`) followed by `urlparse`'s params split on the last path segment.
-/

structure UrlParts where
  scheme : String
  netloc : String
  path : String
  params : String
  query : String
  fragment : String
deriving Repr, DecidableEq

/-- The characters CPython allows in a URL scheme after the leading
letter. -/
def schemeChar (c : Char) : Bool :=
  c.isAlpha || c.isDigit || c = '+' || c = '-' || c = '.'

/-- CPython's scheme split: at the first `:`, provided everything before it
is a non-empty run of scheme characters starting with a letter; the scheme
is lowercased. -/
def splitScheme (l : List Char) : List Char × List Char :=
  let pre := l.takeWhile (fun c => c ≠ ':')
  if pre.length < l.length && !pre.isEmpty &&
      (match pre with | c :: _ => c.isAlpha | [] => false) && pre.all schemeChar then
    (pre.map Char.toLower, l.drop (pre.length + 1))
  else ([], l)

/-- Characters that terminate the netloc. -/
def netlocStop (c : Char) : Bool :=
  c = '/' || c = '?' || c = '#'

/-- CPython's netloc split: only when the rest starts with `//`
(`url[:2] == "//"`); the netloc runs until the first `/`, `?` or `#`. -/
def splitNetloc (l : List Char) : List Char × List Char :=
  match l with
  | a :: b :: rest =>
    if a = '/' ∧ b = '/' then
      (rest.takeWhile (fun c => !netlocStop c), rest.dropWhile (fun c => !netlocStop c))
    else ([], l)
  | _ => ([], l)

/-- Split at the first occurrence of `mark` (the marker itself is dropped
from the second component); identity-with-empty-rest when absent. -/
def splitAtFirst (mark : Char) (l : List Char) : List Char × List Char :=
  (l.takeWhile (fun c => c ≠ mark), (l.dropWhile (fun c => c ≠ mark)).drop 1)

/-- CPython `urlparse`'s params split: only when a `;` occurs, and (when the
path has a `/`) only when the `;` occurs in the last path segment. -/
def splitParamsL (l : List Char) : List Char × List Char :=
  if !l.contains ';' then (l, [])
  else
    let lastSeg := (l.reverse.takeWhile (fun c => c ≠ '/')).reverse
    if lastSeg.contains ';' then
      (l.take (l.length - lastSeg.length) ++ lastSeg.takeWhile (fun c => c ≠ ';'),
       (lastSeg.dropWhile (fun c => c ≠ ';')).drop 1)
    else (l, [])

/-- List-level `urlparse`. -/
def urlparseL (l : List Char) :
    List Char × List Char × List Char × List Char × List Char × List Char :=
  let s1 := splitScheme l
  let s2 := splitNetloc s1.2
  let s3 := splitAtFirst '#' s2.2
  let s4 := splitAtFirst '?' s3.1
  let s5 := splitParamsL s4.1
  (s1.1, s2.1, s5.1, s5.2, s4.2, s3.2)

/-- Model of `urllib.parse.urlparse` restricted to the six components. -/
def urlparse (s : String) : UrlParts :=
  let (sch, net, p, par, q, frag) := urlparseL s.data
  ⟨String.mk sch, String.mk net, String.mk p, String.mk par, String.mk q, String.mk frag⟩

/-- List-level core of `normalize_url`:
`f"{scheme}://{netloc}{path-rstripped}".lower()`. -/
def normalizeL (l : List Char) : List Char :=
  let parts := urlparseL l
  (parts.1 ++ ':' :: '/' :: '/' :: (parts.2.1 ++ rstripSlash parts.2.2.1)).map Char.toLower

/-- `normalize_url`: strip query params and trailing slashes for dedup
comparison — `f"{scheme}://{netloc}{path-rstripped}"` lowercased. -/
def normalize_url (url : String) : String :=
  String.mk (normalizeL url.data)

def BLOCKED_SITES : List String := ["nytimes.com", "wsj.com"]

/-- `is_blocked_site`: any blocked domain occurs in the lowercased netloc. -/
def is_blocked_site (url : String) : Bool :=
  BLOCKED_SITES.any (fun b => pyIn b (lowerStr (urlparse url).netloc))

def EXCLUDED_DOMAINS : List String :=
  ["wikipedia.org", "youtube.com", "youtu.be",
   "reddit.com", "facebook.com", "instagram.com", "x.com", "twitter.com",
   "trainorders.com", "railfan.com",
   "linkedin.com", "tiktok.com"]

/-- The pattern `^https?://[^/]+/?$` under `re.match` (`$` also matches
just before one trailing newline). -/
def bareHomeMatch (l : List Char) : Bool :=
  match l with
  | 'h' :: 't' :: 't' :: 'p' :: rest =>
    let rest2 := match rest with
      | 's' :: r => r
      | r => r
    match rest2 with
    | ':' :: '/' :: '/' :: r3 =>
      let host := r3.takeWhile (fun c => c ≠ '/')
      let rem := r3.drop host.length
      !host.isEmpty && (rem = [] || rem = ['/'] || rem = ['/', '\n'])
    | _ => false
  | _ => false

/-- `is_excluded_url`: excluded domain in the netloc, or a bare homepage
URL. -/
def is_excluded_url (url : String) : Bool :=
  EXCLUDED_DOMAINS.any (fun e => pyIn e (lowerStr (urlparse url).netloc)) ||
  bareHomeMatch url.data

/-! ## Relevance gate and classifier -/

def RELEVANCE_KEYWORDS : List String :=
  ["portal bridge", "portal north", "cutover", "portal north bridge"]

/-- `is_relevant_content`: scraped content must mention the Portal Bridge
cutover; empty markdown is irrelevant. -/
def is_relevant_content (markdown : String) : Bool :=
  if markdown = "" then false
  else RELEVANCE_KEYWORDS.any (fun kw => pyIn kw (lowerStr markdown))

/-- `classify_category`: URL and content signals, first rule wins. -/
def classify_category (url title description : String) : String :=
  let url_lower := lowerStr url
  let text := lowerStr (title ++ " " ++ description)
  if ["njtransit.com", "media.amtrak.com", "panynj.gov"].any
      (fun d => pyIn d url_lower) then "official"
  else if ["opinion", "editorial", "op-ed", "column", "commentary"].any
      (fun kw => pyIn kw text) then "opinion"
  else if ["analysis", "explainer", "guide", "what to know", "breakdown"].any
      (fun kw => pyIn kw text) then "analysis"
  else if ["tapinto.net", "patch.com", "hobokengirl", "montclairgirl"].any
      (fun d => pyIn d url_lower) then "community"
  else "news"

/-- The five line-keyword sets, in the source's insertion order. -/
def lineKeywords : List (String × List String) :=
  [("montclair-boonton", ["montclair", "boonton", "midtown direct"]),
   ("morris-essex", ["morris", "essex", "morristown", "gladstone", "summit"]),
   ("northeast-corridor", ["northeast corridor", "nec "]),
   ("north-jersey-coast", ["north jersey coast", "njcl", "coast line", "bay head", "long branch"]),
   ("raritan-valley", ["raritan valley", "raritan", "one-seat ride"])]

/-- `classify_lines`: multi-label over the keyword sets; zero or four-plus
hits collapse to the sentinel `["all"]`. -/
def classify_lines (title excerpt : String) : List String :=
  let text := lowerStr (title ++ " " ++ excerpt)
  let lines := (lineKeywords.filter (fun p => p.2.any (fun kw => pyIn kw text))).map Prod.fst
  if lines.length ≥ 4 || lines.isEmpty then ["all"] else lines

/-- `classify_direction`: two keyword sets; both or neither default to
`"both"`. -/
def classify_direction (title excerpt : String) : String :=
  let text := lowerStr (title ++ " " ++ excerpt)
  let njToNyc := ["nj-to-nyc", "into manhattan", "to penn station", "morning commute",
    "heading to new york", "into the city"].any (fun kw => pyIn kw text)
  let nycToNj := ["nyc-to-nj", "reverse commut", "evening commute", "going home",
    "heading to new jersey", "heading home"].any (fun kw => pyIn kw text)
  if njToNyc && nycToNj then "both"
  else if njToNyc then "nj-to-nyc"
  else if nycToNj then "nyc-to-nj"
  else "both"

/-! ## ID assigner, excerpt maker, source naming -/

/-- The source → prefix table of `make_article_id`. -/
def sourceMap : List (String × String) :=
  [("NJ.com", "njdotcom"), ("NorthJersey.com", "northjersey"),
   ("The New York Times", "nytimes"), ("New York Times", "nytimes"),
   ("Gothamist", "gothamist"), ("WNYC", "wnyc"),
   ("New Jersey 101.5", "nj1015"), ("PIX11 News", "pix11"), ("PIX11", "pix11"),
   ("ABC7 New York", "abc7"), ("NJ Transit", "njtransit"),
   ("Amtrak Media", "amtrak"), ("NJ Spotlight News", "nj-spotlight"),
   ("Politico New Jersey", "politico-nj"), ("Hoboken Girl", "hobokengirl"),
   ("The Montclair Girl", "montclairgirl"), ("TAPinto", "tapinto"),
   ("Patch", "patch"), ("NJBIZ", "njbiz"), ("News 12 New Jersey", "news12")]

/-- Python `"-".join(words)`. -/
def joinDash : List (List Char) → List Char
  | [] => []
  | [x] => x
  | x :: xs => x ++ '-' :: joinDash xs

/-- `make_article_id`: `prefix-slug-date`, the slug being the words longer
than 2 characters among the first 4 words of the punctuation-stripped
lowercased title. -/
def make_article_id (source title date : String) : String :=
  let prefix0 := (List.lookup source sourceMap).getD ""
  let prefix1 := if prefix0 = "" then
      String.mk (stripDash (collapseNonAlnum (lowerStr source).data))
    else prefix0
  let words := splitWs (keepAlnumSpace (lowerStr title).data)
  let slugWords := (words.take 4).filter (fun w => w.length > 2)
  let slug := String.mk (joinDash slugWords)
  prefix1 ++ "-" ++ slug ++ "-" ++ date

/-- One attempt of the markdown-link regex
`\[([^\]]+)\]\([^)]+\)` at the current position: on success, the link text
and the rest of the input. -/
def tryLink : List Char → Option (List Char × List Char)
  | '[' :: r =>
    let txt := r.takeWhile (fun c => c ≠ ']')
    if txt.isEmpty then none
    else match r.drop txt.length with
      | ']' :: '(' :: r2 =>
        let u := r2.takeWhile (fun c => c ≠ ')')
        if u.isEmpty then none
        else match r2.drop u.length with
          | ')' :: rest => some (txt, rest)
          | _ => none
      | _ => none
  | _ => none

/-- Fuelled scan for `re.sub(r"\[([^\]]+)\]\([^)]+\)", r"\1", line)`. -/
def linkStripGo : Nat → List Char → List Char
  | 0, l => l
  | _ + 1, [] => []
  | n + 1, c :: t =>
    match tryLink (c :: t) with
    | some (txt, rest) => txt ++ linkStripGo n rest
    | none => c :: linkStripGo n t

/-- The markdown cleaning of one excerpt line: strip links, then remove
`*`, `_` and backquote characters (`re.sub(r"[*_`]", "", clean)`). -/
def cleanLine (l : List Char) : List Char :=
  (linkStripGo l.length l).filter
    (fun c => c ≠ '*' && c ≠ '_' && c ≠ Char.ofNat 96)

/-- The per-line filter of `make_excerpt`: strip, drop empties, drop lines
starting with `#`, `[` or `!`, drop lines shorter than 40 characters,
clean, keep if the cleaned line is longer than 40 characters. -/
def excerptLines (markdown : String) : List (List Char) :=
  (splitOnNl markdown).filterMap (fun line =>
    let l := stripWs line
    match l with
    | [] => none
    | c :: _ =>
      if c = '#' || c = '[' || c = '!' then none
      else if l.length < 40 then none
      else
        let clean := cleanLine l
        if clean.length > 40 then some clean else none)

/-- `text[:400].rsplit(" ", 1)[0]`: everything before the last space of the
400-character prefix (the prefix itself when it has no space). -/
def dropLastWordPart (l : List Char) : List Char :=
  if l.contains ' ' then ((l.reverse.dropWhile (fun c => c ≠ ' ')).drop 1).reverse
  else l

/-- `make_excerpt` with the default `max_chars=400` (the only call form in
the source). -/
def make_excerpt (markdown : String) : String :=
  if markdown = "" then ""
  else
    let text := joinSpace ((excerptLines markdown).take 5)
    if text.length > 400 then
      String.mk (dropLastWordPart (text.take 400)) ++ "..."
    else String.mk text

/-- The domain → display-name table of `source_name_from_url`. -/
def domainMap : List (String × String) :=
  [("nj.com", "NJ.com"), ("northjersey.com", "NorthJersey.com"),
   ("nytimes.com", "The New York Times"), ("gothamist.com", "Gothamist"),
   ("wnyc.org", "WNYC"), ("nj1015.com", "New Jersey 101.5"),
   ("pix11.com", "PIX11 News"), ("abc7ny.com", "ABC7 New York"),
   ("politico.com", "Politico New Jersey"), ("njspotlightnews.org", "NJ Spotlight News"),
   ("tapinto.net", "TAPinto"), ("patch.com", "Patch"), ("njbiz.com", "NJBIZ"),
   ("hobokengirl.com", "Hoboken Girl"), ("themontclairgirl.com", "The Montclair Girl"),
   ("newjersey.news12.com", "News 12 New Jersey"), ("njtransit.com", "NJ Transit"),
   ("media.amtrak.com", "Amtrak Media"), ("cbsnews.com", "CBS News"),
   ("nbcnewyork.com", "NBC New York"), ("fox5ny.com", "Fox 5 New York"),
   ("silive.com", "SILive.com"), ("dailyrecord.com", "Daily Record"),
   ("app.com", "Asbury Park Press")]

/-- `source_name_from_url`: first table key occurring in the
`www.`-stripped lowercased netloc, else the bare domain. -/
def source_name_from_url (url : String) : String :=
  let domain := pyReplace (lowerStr (urlparse url).netloc) "www." ""
  ((domainMap.find? (fun p => pyIn p.1 domain)).map Prod.snd).getD domain

/-! ## Validator -/

def VALID_CATEGORIES : List String :=
  ["official", "news", "analysis", "community", "opinion"]

def VALID_DIRECTIONS : List String :=
  ["both", "nj-to-nyc", "nyc-to-nj"]

def VALID_LINES : List String :=
  ["all", "montclair-boonton", "morris-essex",
   "northeast-corridor", "north-jersey-coast", "raritan-valley"]

/-- A coverage article record.  The Python code passes a dict; a required
key that is absent and one bound to a falsy value are indistinguishable to
`validate_article`, so missing string fields are modelled as `""`, a
missing author as `none` and missing lines as `[]`. -/
structure Article where
  id : String
  title : String
  url : String
  source : String
  author : Option String
  date : String
  category : String
  excerpt : String
  lines : List String
  direction : String
deriving Repr, DecidableEq

/-- The core of `re.match(r"^\d{4}-\d{2}-\d{2}$", s)`: exactly
`dddd-dd-dd`. -/
def dateReCore : List Char → Bool
  | [y1, y2, y3, y4, h1, m1, m2, h2, d1, d2] =>
    y1.isDigit && y2.isDigit && y3.isDigit && y4.isDigit && h1 = '-' &&
    m1.isDigit && m2.isDigit && h2 = '-' && d1.isDigit && d2.isDigit
  | _ => false

/-- `re.match(r"^\d{4}-\d{2}-\d{2}$", s)` as a Bool (Python's `$` also
matches just before a single trailing newline). -/
def dateReMatch (s : String) : Bool :=
  dateReCore s.data ||
  (match s.data.getLast? with
   | some c => c = '\n' && dateReCore s.data.dropLast
   | none => false)

/-- The required-field loop of `validate_article`, in source order. -/
def requiredViolations (a : Article) : List String :=
  (if a.id = "" then ["missing id"] else []) ++
  (if a.title = "" then ["missing title"] else []) ++
  (if a.url = "" then ["missing url"] else []) ++
  (if a.source = "" then ["missing source"] else []) ++
  (if a.date = "" then ["missing date"] else []) ++
  (if a.category = "" then ["missing category"] else []) ++
  (if a.excerpt = "" then ["missing excerpt"] else []) ++
  (if a.lines = [] then ["missing lines"] else []) ++
  (if a.direction = "" then ["missing direction"] else [])

/-- `validate_article`: a list of human-readable violations, never an
exception. -/
def validate_article (a : Article) : List String :=
  requiredViolations a ++
  (if a.date ≠ "" && !dateReMatch a.date then
    ["invalid date format: " ++ a.date] else []) ++
  (if a.category ≠ "" && !VALID_CATEGORIES.contains a.category then
    ["invalid category: " ++ a.category] else []) ++
  (if a.direction ≠ "" && !VALID_DIRECTIONS.contains a.direction then
    ["invalid direction: " ++ a.direction] else []) ++
  (if a.lines ≠ [] then
    a.lines.filterMap (fun l =>
      if VALID_LINES.contains l then none else some ("invalid line: " ++ l))
   else []) ++
  (if a.url ≠ "" && !pyStartsWith a.url "https" then
    ["URL not HTTPS: " ++ a.url] else [])

/-! ## The discovery pipeline (`run_discover`)

The network-facing steps are oracles: `checkStatus` models
`check_url_status` (`none` stands for `(None, None)` on a connection
error), and `scrape` models `scrape_article_metadata` (`none` stands for a
scrape exception or a detected 404 page, both of which the source maps to
`None`).  Everything the source computes from their results is embedded
verbatim.
-/

structure Candidate where
  url : String
  title : String
  description : String
  date : Option String
  source : String
deriving Repr, DecidableEq

structure Scraped where
  title : String
  date : Option String
  author : Option String
  markdown : String
deriving Repr, DecidableEq

structure Oracles where
  checkStatus : String → Option (Nat × String)
  scrape : String → Option Scraped

/-- The date fallback of `run_discover`:
`candidate.get("date") or scraped["date"] or today` under Python
truthiness. -/
def chooseDate (candDate scrapedDate : Option String) (today : String) : String :=
  match candDate with
  | some d =>
    if d ≠ "" then d
    else match scrapedDate with
      | some sd => if sd ≠ "" then sd else today
      | none => today
  | none =>
    match scrapedDate with
    | some sd => if sd ≠ "" then sd else today
    | none => today

/-- The record-construction block of `run_discover` (lines building the
`article` dict), for a candidate whose scrape succeeded; `url` is the
redirect-followed final URL. -/
def buildArticle (url today : String) (c : Candidate) (s : Scraped) : Article :=
  let source := pyOrStr c.source (source_name_from_url url)
  let title := pyOrStr s.title c.title
  let date := chooseDate c.date s.date today
  let excerpt := pyOrStr (make_excerpt s.markdown) c.description
  { id := make_article_id source title date,
    title := title,
    url := url,
    source := source,
    author := s.author,
    date := date,
    category := classify_category url title excerpt,
    excerpt := excerpt,
    lines := classify_lines title excerpt,
    direction := classify_direction title excerpt }

/-- The URL-path suffix used to disambiguate a colliding id:
`re.sub(r"[^a-z0-9]+", "-", path.lower()).strip("-")[-20:]`. -/
def pathSlugSuffix (url : String) : String :=
  String.mk (takeRight 20 (stripDash (collapseNonAlnum (lowerStr (urlparse url).path).data)))

/-- The per-candidate body of the `run_discover` loop: HTTP gate, scrape,
relevance gate, record construction, validation, id-collision handling.
Returns the accepted article (if any) and the updated used-id set. -/
def processCandidate (o : Oracles) (today : String) (used : List String)
    (c : Candidate) : Option Article × List String :=
  match o.checkStatus c.url with
  | none => (none, used)
  | some (status, finalUrl) =>
    if status ≠ 200 then (none, used)
    else
      match o.scrape finalUrl with
      | none => (none, used)
      | some s =>
        if !is_relevant_content s.markdown then (none, used)
        else
          let article := buildArticle finalUrl today c s
          if validate_article article ≠ [] then (none, used)
          else
            let id1 := if used.contains article.id then
                article.id ++ "-" ++ pathSlugSuffix finalUrl
              else article.id
            if used.contains id1 then (none, used)
            else (some { article with id := id1 }, id1 :: used)

/-- The candidate loop of `run_discover`, threading the used-id set. -/
def processAll (o : Oracles) (today : String) : List String → List Candidate → List Article
  | _, [] => []
  | used, c :: rest =>
    match processCandidate o today used c with
    | (some a, used2) => a :: processAll o today used2 rest
    | (none, used2) => processAll o today used2 rest

/-- The adapter-merge dedup of `run_discover`: first candidate with a given
normalized URL wins. -/
def dedupGo (seen : List String) : List Candidate → List Candidate
  | [] => []
  | c :: rest =>
    let n := normalize_url c.url
    if seen.contains n then dedupGo seen rest
    else c :: dedupGo (n :: seen) rest

def dedupCandidates (cs : List Candidate) : List Candidate :=
  dedupGo [] cs

/-- Stable insertion step for the date-descending sort: an article moves
past exactly the stored entries with a strictly greater date, so equal
dates keep their original order. -/
def insertByDateDesc (a : Article) : List Article → List Article
  | [] => [a]
  | b :: bs =>
    if ltChars a.date.data b.date.data then b :: insertByDateDesc a bs
    else a :: b :: bs

/-- Python `list.sort(key=lambda a: a["date"], reverse=True)`: a stable
sort descending by the date string (insertion sort — extensionally equal
to any stable sort with this key). -/
def sortByDateDesc : List Article → List Article
  | [] => []
  | a :: rest => insertByDateDesc a (sortByDateDesc rest)

structure Coverage where
  articles : List Article
  lastUpdated : String
deriving Repr, DecidableEq

/-- The persistence skeleton of `run_discover`: candidates (the merged
adapter output) are deduped; each is processed against the used-id set
seeded from the existing dataset; when no new valid article results, no
dataset write happens (`none`), otherwise the extended dataset is re-sorted
and timestamped.  Returns the written dataset (if any) and the accepted
articles. -/
def runDiscover (o : Oracles) (today now : String) (cov : Coverage)
    (raw : List Candidate) : Option Coverage × List Article :=
  let candidates := dedupCandidates raw
  if candidates.isEmpty then (none, [])
  else
    let used := cov.articles.map Article.id
    let newArticles := processAll o today used candidates
    if newArticles.isEmpty then (none, [])
    else (some ⟨sortByDateDesc (cov.articles ++ newArticles), now⟩, newArticles)

/-! ## The drift verifier (`--verify`) -/

structure Correction where
  id : String
  url : String
  dateChange : Option (String × String)
  authorChange : Option String
deriving Repr, DecidableEq

/-- The per-article body of `verify_existing_articles`: skip blocked sites
and failed scrapes; propose a date change when a truthy scraped date
differs from the stored one, an author change when a truthy scraped author
meets a falsy stored one; emit a correction exactly when a change exists. -/
def mkCorrection (scrape : String → Option Scraped) (a : Article) : Option Correction :=
  if is_blocked_site a.url then none
  else
    match scrape a.url with
    | none => none
    | some s =>
      let dc : Option (String × String) :=
        match s.date with
        | some d => if d ≠ "" && d ≠ a.date then some (a.date, d) else none
        | none => none
      let ac : Option String :=
        match s.author with
        | some au => if au ≠ "" && !optTruthy a.author then some au else none
        | none => none
      if dc.isSome || ac.isSome then some ⟨a.id, a.url, dc, ac⟩ else none

/-- `verify_existing_articles` over the persisted article list. -/
def verify_existing_articles (scrape : String → Option Scraped)
    (articles : List Article) : List Correction :=
  articles.filterMap (mkCorrection scrape)

/-- Applying one correction to its article: overwrite the changed fields,
then rewrite the id (old date replaced by new) exactly when the old date
occurs in the id. -/
def applyChanges (c : Correction) (a : Article) : Article :=
  let a1 := match c.dateChange with
    | some p => { a with date := p.2 }
    | none => a
  let a2 := match c.authorChange with
    | some n => { a1 with author := some n }
    | none => a1
  match c.dateChange with
  | some p =>
    if pyIn p.1 a2.id then { a2 with id := pyReplace a2.id p.1 p.2 } else a2
  | none => a2

/-- The last list position holding a given id — the entry
`{a["id"]: a for a in articles}` leaves in the lookup dict (later
duplicates overwrite earlier ones; in-place mutation makes position the
object identity). -/
def lastIdxOf (arts : List Article) (i : String) : Option Nat :=
  ((arts.enum.filter (fun p => p.2.id = i)).getLast?).map Prod.fst

/-- Update the article at one position. -/
def updateAt (arts : List Article) (k : Nat) (f : Article → Article) : List Article :=
  arts.enum.map (fun p => if p.1 = k then f p.2 else p.2)

/-- `apply_corrections`: the id → article dict is built once from the
incoming list; each correction with a known id updates its article in
place; the list is finally re-sorted by date descending.  Returns the new
article list and the applied count. -/
def apply_corrections (arts : List Article) (cs : List Correction) :
    List Article × Nat :=
  let st := cs.foldl (fun (st : List Article × Nat) c =>
    match lastIdxOf arts c.id with
    | none => st
    | some k => (updateAt st.1 k (applyChanges c), st.2 + 1)) (arts, 0)
  (sortByDateDesc st.1, st.2)

end RerouteNJ

namespace RerouteNJ

/-! ## Helper lemmas for the validator -/

lemma dateReMatch_ne_empty {s : String} (h : dateReMatch s = true) : s ≠ "" := by
  intro he; subst he; exact absurd h (by decide)

lemma cat_contains_ne_empty {s : String} (h : VALID_CATEGORIES.contains s = true) : s ≠ "" := by
  intro he; subst he; exact absurd h (by decide)

lemma dir_contains_ne_empty {s : String} (h : VALID_DIRECTIONS.contains s = true) : s ≠ "" := by
  intro he; subst he; exact absurd h (by decide)

lemma pyStartsWith_https_ne_empty {s : String} (h : pyStartsWith s "https" = true) : s ≠ "" := by
  intro he; subst he; exact absurd h (by decide)

/-! ## Claim C2 — the end-to-end scenario -/

def c2Title : String :=
  "NJ Transit diverts Montclair-Boonton trains to Hoboken during Portal Bridge work"

/-- C2 counterexample: on the scenario input the assigned id is
`njdotcom-transit-diverts-montclairboonton-2026-02-16` — the 2-letter word
"nj" is filtered out of the slug and the hyphen of "Montclair-Boonton" is
deleted rather than treated as a word break, so the id does not begin with
the claimed prefix `njdotcom-nj-transit-diverts-montclair-2026-02-16`. -/
theorem c2_claimed_id_prefix_false :
    make_article_id "NJ.com" c2Title "2026-02-16" =
      "njdotcom-transit-diverts-montclairboonton-2026-02-16" ∧
    pyStartsWith (make_article_id "NJ.com" c2Title "2026-02-16")
      "njdotcom-nj-transit-diverts-montclair-2026-02-16" = false :=
  ⟨by decide, by decide⟩

/-- C2 (amended): on the RSS candidate titled "NJ Transit diverts
Montclair-Boonton trains to Hoboken during Portal Bridge work" from
NJ.com at the scenario URL, the category classifier returns "news", the
line classifier returns a list containing "montclair-boonton", the
direction classifier returns "both", and the assigned id begins with
`njdotcom-transit-diverts-montclairboonton-2026-02-16`. -/
theorem c2_scenario :
    classify_category "https://www.nj.com/transit/2026/02/foo.html" c2Title "" = "news" ∧
    "montclair-boonton" ∈ classify_lines c2Title "" ∧
    classify_direction c2Title "" = "both" ∧
    pyStartsWith (make_article_id "NJ.com" c2Title "2026-02-16")
      "njdotcom-transit-diverts-montclairboonton-2026-02-16" = true := by
  refine ⟨by decide, by decide, by decide, by decide⟩

/-! ## Claim C3 — classification determinism -/

/-- C3 counterexample: the category classifier is not a function of
(title, excerpt) alone — with identical text, an njtransit.com URL yields
"official" while another URL yields "news". -/
theorem c3_category_not_function_of_text :
    classify_category "https://www.njtransit.com/press-release"
        "Portal Bridge update" "Service change." ≠
      classify_category "https://example.com/press-release"
        "Portal Bridge update" "Service change." := by
  decide

/-- C3 (amended): classification is deterministic over (url, title,
excerpt): identical inputs always yield identical (category, lines,
direction), the line and direction classifiers depending on the text
alone, the category classifier also on the URL. -/
theorem c3_classification_deterministic :
    ∀ u₁ u₂ t₁ t₂ e₁ e₂ : String, u₁ = u₂ → t₁ = t₂ → e₁ = e₂ →
      classify_category u₁ t₁ e₁ = classify_category u₂ t₂ e₂ ∧
      classify_lines t₁ e₁ = classify_lines t₂ e₂ ∧
      classify_direction t₁ e₁ = classify_direction t₂ e₂ := by
  intro u₁ u₂ t₁ t₂ e₁ e₂ hu ht he
  subst hu; subst ht; subst he
  exact ⟨rfl, rfl, rfl⟩

/-- C3 witness: the determinism theorem applied at a concrete input. -/
theorem c3_classification_deterministic_witness :
    classify_category "https://example.com/a" "Portal Bridge closes" "Soon." =
      classify_category "https://example.com/a" "Portal Bridge closes" "Soon." ∧
    classify_lines "Portal Bridge closes" "Soon." =
      classify_lines "Portal Bridge closes" "Soon." ∧
    classify_direction "Portal Bridge closes" "Soon." =
      classify_direction "Portal Bridge closes" "Soon." :=
  c3_classification_deterministic _ _ _ _ _ _ rfl rfl rfl

/-! ## Claim C4 — the validator -/

def c4BadDate : Article :=
  ⟨"x-id", "T", "https://ex.com/a", "Src", none, "2026-13-45", "news", "E", ["all"], "both"⟩

def c4OddScheme : Article :=
  ⟨"x-id", "T", "httpsx://ex.com/a", "Src", none, "2026-02-16", "news", "E", ["all"], "both"⟩

/-- C4 counterexample: the validator's date check is the bare regex
`^\d{4}-\d{2}-\d{2}$` — the impossible calendar date "2026-13-45" passes
with no violation; likewise "URL scheme is https" is really
`url.startswith("https")`, so the scheme `httpsx` passes. -/
theorem c4_validator_gaps :
    validate_article c4BadDate = [] ∧ c4BadDate.date = "2026-13-45" ∧
    validate_article c4OddScheme = [] ∧ (urlparse c4OddScheme.url).scheme = "httpsx" :=
  ⟨by decide, rfl, by decide, by decide⟩

/-- C4 (amended): `validate_article` returns a list of violation strings
and never raises; each of the nine required fields yields a "missing
<field>" violation when empty; a non-empty date not matching the
`dddd-dd-dd` shape yields a violation (calendar validity is not checked);
a category, direction or line tag outside its closed enum yields a
violation; a non-empty URL not starting with the literal "https" yields a
violation; and the violation list is empty exactly when all of these
checks pass. -/
theorem c4_validator_characterization : ∀ a : Article,
    (a.id = "" → "missing id" ∈ validate_article a) ∧
    (a.title = "" → "missing title" ∈ validate_article a) ∧
    (a.url = "" → "missing url" ∈ validate_article a) ∧
    (a.source = "" → "missing source" ∈ validate_article a) ∧
    (a.date = "" → "missing date" ∈ validate_article a) ∧
    (a.category = "" → "missing category" ∈ validate_article a) ∧
    (a.excerpt = "" → "missing excerpt" ∈ validate_article a) ∧
    (a.lines = [] → "missing lines" ∈ validate_article a) ∧
    (a.direction = "" → "missing direction" ∈ validate_article a) ∧
    (a.date ≠ "" → dateReMatch a.date = false →
      ("invalid date format: " ++ a.date) ∈ validate_article a) ∧
    (a.category ≠ "" → VALID_CATEGORIES.contains a.category = false →
      ("invalid category: " ++ a.category) ∈ validate_article a) ∧
    (a.direction ≠ "" → VALID_DIRECTIONS.contains a.direction = false →
      ("invalid direction: " ++ a.direction) ∈ validate_article a) ∧
    (∀ l ∈ a.lines, VALID_LINES.contains l = false →
      ("invalid line: " ++ l) ∈ validate_article a) ∧
    (a.url ≠ "" → pyStartsWith a.url "https" = false →
      ("URL not HTTPS: " ++ a.url) ∈ validate_article a) ∧
    (validate_article a = [] ↔
      (a.id ≠ "" ∧ a.title ≠ "" ∧ a.url ≠ "" ∧ a.source ≠ "" ∧ a.excerpt ≠ "" ∧
       dateReMatch a.date = true ∧
       VALID_CATEGORIES.contains a.category = true ∧
       VALID_DIRECTIONS.contains a.direction = true ∧
       a.lines ≠ [] ∧ (∀ l ∈ a.lines, VALID_LINES.contains l = true) ∧
       pyStartsWith a.url "https" = true)) := by
  intro a
  refine ⟨fun h => by simp [validate_article, requiredViolations, h],
    fun h => by simp [validate_article, requiredViolations, h],
    fun h => by simp [validate_article, requiredViolations, h],
    fun h => by simp [validate_article, requiredViolations, h],
    fun h => by simp [validate_article, requiredViolations, h],
    fun h => by simp [validate_article, requiredViolations, h],
    fun h => by simp [validate_article, requiredViolations, h],
    fun h => by simp [validate_article, requiredViolations, h],
    fun h => by simp [validate_article, requiredViolations, h],
    fun h1 h2 => by simp [validate_article, requiredViolations, h1, h2],
    fun h1 h2 => ?_, fun h1 h2 => ?_,
    fun l hl h => ?_,
    fun h1 h2 => by simp [validate_article, requiredViolations, h1, h2],
    ?_⟩
  · have hcond : (decide (a.category ≠ "") && !VALID_CATEGORIES.contains a.category) = true := by
      simp only [Bool.and_eq_true, decide_eq_true_eq, Bool.not_eq_true']
      exact ⟨h1, h2⟩
    have hmem : ("invalid category: " ++ a.category) ∈
        (if a.category ≠ "" && !VALID_CATEGORIES.contains a.category then
          ["invalid category: " ++ a.category] else []) := by
      rw [if_pos hcond]
      exact List.mem_singleton.mpr rfl
    unfold validate_article
    exact List.mem_append_left _ (List.mem_append_left _
      (List.mem_append_left _ (List.mem_append_right _ hmem)))
  · have hcond : (decide (a.direction ≠ "") && !VALID_DIRECTIONS.contains a.direction) = true := by
      simp only [Bool.and_eq_true, decide_eq_true_eq, Bool.not_eq_true']
      exact ⟨h1, h2⟩
    have hmem : ("invalid direction: " ++ a.direction) ∈
        (if a.direction ≠ "" && !VALID_DIRECTIONS.contains a.direction then
          ["invalid direction: " ++ a.direction] else []) := by
      rw [if_pos hcond]
      exact List.mem_singleton.mpr rfl
    unfold validate_article
    exact List.mem_append_left _ (List.mem_append_left _ (List.mem_append_right _ hmem))
  · have hne := List.ne_nil_of_mem hl
    have hmem : ("invalid line: " ++ l) ∈ (if a.lines ≠ [] then
        a.lines.filterMap (fun x =>
          if VALID_LINES.contains x then none else some ("invalid line: " ++ x)) else []) := by
      rw [if_pos hne]
      exact List.mem_filterMap.mpr ⟨l, hl, by rw [h]; simp⟩
    unfold validate_article
    exact List.mem_append_left _ (List.mem_append_right _ hmem)
  · simp only [validate_article, requiredViolations, List.append_eq_nil,
      List.filterMap_eq_nil_iff, ite_eq_right_iff, List.cons_ne_nil, imp_false,
      Bool.and_eq_true, Bool.not_eq_true, decide_eq_true_eq, not_and, not_not, ne_eq,
      Bool.not_eq_false, ite_eq_left_iff, reduceCtorEq, not_forall, not_exists]
    constructor
    · rintro ⟨⟨⟨⟨⟨⟨⟨⟨⟨⟨⟨⟨⟨h1, h2⟩, h3⟩, h4⟩, h5⟩, h6⟩, h7⟩, h8⟩, h9⟩, h10⟩, h11⟩, h12⟩, h13⟩, h14⟩
      exact ⟨h1, h2, h3, h4, h7, by simpa using h10 h5, by simpa using h11 h6,
        by simpa using h12 h9, h8, h13 h8, by simpa using h14 h3⟩
    · rintro ⟨h1, h2, h3, h4, h7, hdre, hcat, hdir, h8, hall, hurl⟩
      exact ⟨⟨⟨⟨⟨⟨⟨⟨⟨⟨⟨⟨⟨h1, h2⟩, h3⟩, h4⟩, dateReMatch_ne_empty hdre⟩,
        cat_contains_ne_empty hcat⟩, h7⟩, h8⟩, dir_contains_ne_empty hdir⟩,
        fun _ => by simp [hdre]⟩, fun _ => by simpa using hcat⟩,
        fun _ => by simpa using hdir⟩, fun _ => hall⟩, fun _ => by simp [hurl]⟩

def c4Blank : Article := ⟨"", "", "", "", none, "", "", "", [], ""⟩

def c4Good : Article :=
  ⟨"g-id", "G", "https://ex.com/g", "Src", none, "2026-02-16", "news", "E", ["all"], "both"⟩

/-- C4 witness: the characterization applied at a fully blank record and
at a fully valid record. -/
theorem c4_validator_characterization_witness :
    "missing id" ∈ validate_article c4Blank ∧ validate_article c4Good = [] := by
  obtain ⟨hid, _, _, _, _, _, _, _, _, _, _, _, _, _, _⟩ :=
    c4_validator_characterization c4Blank
  obtain ⟨_, _, _, _, _, _, _, _, _, _, _, _, _, _, hiff⟩ :=
    c4_validator_characterization c4Good
  exact ⟨hid rfl, hiff.mpr (by decide)⟩

end RerouteNJ

namespace RerouteNJ

/-! ## Helper lemmas for the pipeline -/

/-- With a non-empty date field, no "missing date" violation is reported
(every other message differs from it, by literal value or by length). -/
lemma missing_date_not_mem : ∀ a : Article, a.date ≠ "" → "missing date" ∉ validate_article a := by
  intro a h hmem
  simp [validate_article, requiredViolations, h] at hmem
  rcases hmem with ⟨_, he⟩ | ⟨_, he⟩ | ⟨_, he⟩ | ⟨_, _, _, _, he⟩ | ⟨_, he⟩
  · have hl := congrArg String.length he
    rw [String.length_append, show "missing date".length = 12 from rfl,
      show "invalid date format: ".length = 21 from rfl] at hl
    omega
  · have hl := congrArg String.length he
    rw [String.length_append, show "missing date".length = 12 from rfl,
      show "invalid category: ".length = 18 from rfl] at hl
    omega
  · have hl := congrArg String.length he
    rw [String.length_append, show "missing date".length = 12 from rfl,
      show "invalid direction: ".length = 19 from rfl] at hl
    omega
  · have hl := congrArg String.length he
    rw [String.length_append, show "missing date".length = 12 from rfl,
      show "invalid line: ".length = 14 from rfl] at hl
    omega
  · have hl := congrArg String.length he
    rw [String.length_append, show "missing date".length = 12 from rfl,
      show "URL not HTTPS: ".length = 15 from rfl] at hl
    omega

lemma chooseDate_ne_empty (cd sd : Option String) (today : String) (ht : today ≠ "") :
    chooseDate cd sd today ≠ "" := by
  unfold chooseDate
  rcases cd with _ | d
  · rcases sd with _ | s
    · exact ht
    · by_cases hs : s = "" <;> simp [hs, ht]
  · rcases sd with _ | s
    · by_cases hd : d = "" <;> simp [hd, ht]
    · by_cases hd : d = "" <;> by_cases hs : s = "" <;> simp [hd, hs, ht]

lemma chooseDate_fallback (cd sd : Option String) (today : String)
    (h1 : optTruthy cd = false) (h2 : optTruthy sd = false) :
    chooseDate cd sd today = today := by
  unfold chooseDate
  rcases cd with _ | d
  · rcases sd with _ | s
    · rfl
    · simp [optTruthy] at h2
      simp [h2]
  · simp [optTruthy] at h1
    rcases sd with _ | s
    · simp [h1]
    · simp [optTruthy] at h2
      simp [h1, h2]

/-- An entirely failed scrape (`scrape_article_metadata` returning `None`)
makes the discover loop skip the candidate. -/
lemma pc_drop_scrape_none (o : Oracles) (today : String) (used : List String) (c : Candidate)
    (fu : String) (h1 : o.checkStatus c.url = some (200, fu)) (h2 : o.scrape fu = none) :
    processCandidate o today used c = (none, used) := by
  unfold processCandidate
  rw [h1]
  simp [h2]

/-- A record failing validation is skipped, not raised on. -/
lemma pc_drop_invalid (o : Oracles) (today : String) (used : List String) (c : Candidate)
    (fu : String) (s : Scraped) (h1 : o.checkStatus c.url = some (200, fu))
    (h2 : o.scrape fu = some s) (h3 : is_relevant_content s.markdown = true)
    (h4 : validate_article (buildArticle fu today c s) ≠ []) :
    processCandidate o today used c = (none, used) := by
  unfold processCandidate
  rw [h1]
  simp [h2, h3, h4]

/-- An accepted candidate carries the title and excerpt of the record the
construction block built. -/
lemma pc_some_inversion (o : Oracles) (today : String) (used : List String) (c : Candidate)
    (fu : String) (s : Scraped) (a : Article) (used2 : List String)
    (h1 : o.checkStatus c.url = some (200, fu)) (h2 : o.scrape fu = some s)
    (hres : processCandidate o today used c = (some a, used2)) :
    a.title = (buildArticle fu today c s).title ∧
    a.excerpt = (buildArticle fu today c s).excerpt := by
  unfold processCandidate at hres
  rw [h1] at hres
  simp only [if_neg (by decide : ¬ (200 ≠ 200)), h2] at hres
  by_cases h3 : is_relevant_content s.markdown
  · simp only [h3] at hres
    by_cases h4 : validate_article (buildArticle fu today c s) = []
    · simp only [h4, ne_eq, not_true_eq_false, if_false] at hres
      repeat' split at hres
      all_goals
        first
          | (rw [Prod.mk.injEq, Option.some.injEq] at hres
             obtain ⟨ha, -⟩ := hres
             rw [← ha]
             exact ⟨rfl, rfl⟩)
          | exact absurd hres (by simp)
    · simp [h4] at hres
  · simp [h3] at hres

/-! ## Claim C1 — handling of a fully failed scrape -/

def c1Oracle : Oracles := ⟨fun u => some (200, u), fun _ => none⟩

def c1Candidate : Candidate :=
  ⟨"https://www.nj.com/transit/2026/02/foo.html",
   "NJ Transit diverts Montclair-Boonton trains to Hoboken during Portal Bridge work",
   "Portal Bridge work diverts trains.", some "2026-02-16", "NJ.com"⟩

/-- The record the claim says should be persisted for `c1Candidate` when
its scrape fails: built from the adapter-supplied title, date and
description alone. -/
def c1AdapterRecord : Article :=
  { id := make_article_id c1Candidate.source c1Candidate.title "2026-02-16"
    title := c1Candidate.title
    url := c1Candidate.url
    source := c1Candidate.source
    author := none
    date := "2026-02-16"
    category := classify_category c1Candidate.url c1Candidate.title c1Candidate.description
    excerpt := c1Candidate.description
    lines := classify_lines c1Candidate.title c1Candidate.description
    direction := classify_direction c1Candidate.title c1Candidate.description }

/-- C1 counterexample: a candidate that passes the HTTP gate but whose
scrape fails entirely is dropped — the run writes nothing and produces no
record — even though the record built from the adapter-supplied
title/date/description would pass the Validator. -/
theorem c1_claimed_fallback_false :
    runDiscover c1Oracle "2026-02-20" "2026-02-20T00:00:00Z"
        ⟨[], "2026-01-01T00:00:00Z"⟩ [c1Candidate] = (none, []) ∧
    c1Oracle.checkStatus c1Candidate.url = some (200, c1Candidate.url) ∧
    c1Oracle.scrape c1Candidate.url = none ∧
    validate_article c1AdapterRecord = [] :=
  ⟨by decide, rfl, rfl, by decide⟩

/-- C1 (amended): a candidate whose scrape fails entirely is dropped
(skipped) without raising, and one whose built record fails validation is
likewise dropped; the adapter-supplied title and description act as
fallbacks only when the scrape succeeds but yields an empty title or an
empty extracted excerpt. -/
theorem c1_scrape_failure_handling :
    ∀ (o : Oracles) (today : String) (used : List String) (c : Candidate)
      (fu : String) (s : Scraped) (a : Article) (used2 : List String),
      (o.checkStatus c.url = some (200, fu) → o.scrape fu = none →
        processCandidate o today used c = (none, used)) ∧
      (o.checkStatus c.url = some (200, fu) → o.scrape fu = some s →
        is_relevant_content s.markdown = true →
        validate_article (buildArticle fu today c s) ≠ [] →
        processCandidate o today used c = (none, used)) ∧
      (o.checkStatus c.url = some (200, fu) → o.scrape fu = some s →
        processCandidate o today used c = (some a, used2) →
        (s.title = "" → a.title = c.title) ∧
        (make_excerpt s.markdown = "" → a.excerpt = c.description)) := by
  intro o today used c fu s a used2
  refine ⟨pc_drop_scrape_none o today used c fu,
    pc_drop_invalid o today used c fu s, fun h1 h2 hres => ?_⟩
  obtain ⟨ht, he⟩ := pc_some_inversion o today used c fu s a used2 h1 h2 hres
  constructor
  · intro hst
    rw [ht]
    show pyOrStr s.title c.title = c.title
    rw [hst]
    rfl
  · intro hme
    rw [he]
    show pyOrStr (make_excerpt s.markdown) c.description = c.description
    rw [hme]
    rfl

def c1DummyScraped : Scraped := ⟨"", none, none, ""⟩

def c1DummyArticle : Article := ⟨"", "", "", "", none, "", "", "", [], ""⟩

/-- C1 witness: the drop branch applied to the concrete candidate and the
failing oracle. -/
theorem c1_scrape_failure_handling_witness :
    processCandidate c1Oracle "2026-02-20" [] c1Candidate = (none, []) :=
  (c1_scrape_failure_handling c1Oracle "2026-02-20" [] c1Candidate
    c1Candidate.url c1DummyScraped c1DummyArticle []).1 rfl rfl

/-! ## Claim C7 — id rewrite on a date correction -/

def c7Record : Article :=
  ⟨"wnyc-service-cut-2026-02-10", "T", "https://wnyc.org/a", "WNYC", none,
   "2026-02-10", "news", "E", ["all"], "both"⟩

/-- C7: applying a date correction rewrites the record id (old date
replaced by new) exactly when the old date occurs literally in the id,
and leaves it unchanged otherwise; in particular the stored record
`wnyc-service-cut-2026-02-10` corrected from 2026-02-10 to 2026-02-12
ends with id `wnyc-service-cut-2026-02-12`. -/
theorem c7_date_correction_rewrites_id :
    (∀ (a : Article) (old nw u : String),
      (apply_corrections [a] [⟨a.id, u, some (old, nw), none⟩]).1 =
        [{ a with
             date := nw
             id := if pyIn old a.id then pyReplace a.id old nw else a.id }]) ∧
    (apply_corrections [c7Record]
        [⟨"wnyc-service-cut-2026-02-10", "https://wnyc.org/a",
          some ("2026-02-10", "2026-02-12"), none⟩]).1 =
      [{ c7Record with
           date := "2026-02-12"
           id := "wnyc-service-cut-2026-02-12" }] := by
  constructor
  · intro a old nw u
    simp only [apply_corrections, lastIdxOf, updateAt, applyChanges, List.foldl,
      List.enum, List.enumFrom, List.filter, decide_True, List.getLast?, Option.map,
      List.map, sortByDateDesc, insertByDateDesc]
    by_cases hp : pyIn old a.id = true <;> simp [List.getLast, hp]
  · decide

/-! ## Claim C9 — no write without new records -/

/-- C9: a discover run that accepts zero new valid records performs no
dataset write — the persisted coverage dataset, articles and
`lastUpdated` alike, is exactly the input dataset. -/
theorem c9_zero_new_no_write :
    ∀ (o : Oracles) (today now : String) (cov : Coverage) (raw : List Candidate),
      (runDiscover o today now cov raw).2 = [] →
      (runDiscover o today now cov raw).1 = none ∧
      ((runDiscover o today now cov raw).1.getD cov) = cov := by
  intro o today now cov raw
  unfold runDiscover
  dsimp only
  split
  · intro _; exact ⟨rfl, rfl⟩
  · split
    · intro _; exact ⟨rfl, rfl⟩
    · intro h
      rename_i hne
      rw [List.isEmpty_iff] at hne
      exact absurd h hne

def c9Oracle : Oracles := ⟨fun _ => some (404, ""), fun _ => none⟩

def c9Candidate : Candidate :=
  ⟨"https://example.com/portal-bridge", "Portal Bridge", "", none, "Example"⟩

def c9Coverage : Coverage :=
  ⟨[⟨"ex-a-2026-01-01", "A", "https://example.com/a", "Example", none,
     "2026-01-01", "news", "E", ["all"], "both"⟩], "2026-01-02T00:00:00Z"⟩

/-- C9 witness: a run whose only candidate fails the HTTP gate leaves the
dataset untouched. -/
theorem c9_zero_new_no_write_witness :
    (runDiscover c9Oracle "2026-02-20" "2026-02-21T00:00:00Z" c9Coverage [c9Candidate]).1
        = none ∧
    ((runDiscover c9Oracle "2026-02-20" "2026-02-21T00:00:00Z" c9Coverage
        [c9Candidate]).1.getD c9Coverage) = c9Coverage :=
  c9_zero_new_no_write c9Oracle "2026-02-20" "2026-02-21T00:00:00Z" c9Coverage
    [c9Candidate] (by decide)

/-! ## Claim C10 — the date fallback chain -/

/-- C10: a record reaching construction never has a null/empty date: the
date is the adapter date, else the extracted date, else the current UTC
day, and with a non-empty current day the Validator can never report
"missing date" for a constructed record. -/
theorem c10_date_never_null :
    ∀ (url today : String) (c : Candidate) (s : Scraped), today ≠ "" →
      (buildArticle url today c s).date ≠ "" ∧
      (optTruthy c.date = false → optTruthy s.date = false →
        (buildArticle url today c s).date = today) ∧
      "missing date" ∉ validate_article (buildArticle url today c s) := by
  intro url today c s ht
  have hdate : (buildArticle url today c s).date = chooseDate c.date s.date today := rfl
  have hne : (buildArticle url today c s).date ≠ "" := by
    rw [hdate]; exact chooseDate_ne_empty c.date s.date today ht
  exact ⟨hne, fun h1 h2 => by rw [hdate]; exact chooseDate_fallback c.date s.date today h1 h2,
    missing_date_not_mem _ hne⟩

def c10Candidate : Candidate := ⟨"https://example.com/b", "B", "", none, "Example"⟩

def c10Scraped : Scraped := ⟨"", none, none, "text"⟩

/-- C10 witness: with no adapter date and no extracted date the built
record carries the current day, and no "missing date" violation arises. -/
theorem c10_date_never_null_witness :
    (buildArticle "https://example.com/b" "2026-02-20" c10Candidate c10Scraped).date
        = "2026-02-20" ∧
    "missing date" ∉
      validate_article (buildArticle "https://example.com/b" "2026-02-20"
        c10Candidate c10Scraped) := by
  obtain ⟨h1, h2, h3⟩ :=
    c10_date_never_null "https://example.com/b" "2026-02-20" c10Candidate c10Scraped
      (by decide)
  exact ⟨h2 (by decide) (by decide), h3⟩

end RerouteNJ

namespace RerouteNJ

/-! ## Claim C6 — what the drift verifier corrects -/

def c6Article : Article :=
  ⟨"gothamist-x-2026-02-01", "T", "https://gothamist.com/x", "Gothamist", none,
   "2026-02-01", "news", "Short.", ["all"], "both"⟩

def c6Scraped : Scraped :=
  ⟨"", some "2026-02-01", none,
   "A sufficiently long paragraph of coverage text about the portal bridge cutover for everyone."⟩

def c6Oracle : String → Option Scraped :=
  fun u => if u = "https://gothamist.com/x" then some c6Scraped else none

/-- C6 counterexample: a stored record with a thin excerpt (6 < 100
characters) whose re-scrape extracts a strictly longer excerpt — but the
same date and no author — receives no correction: the verifier has no
excerpt-upgrade rule at all. -/
theorem c6_thin_excerpt_never_corrected :
    verify_existing_articles c6Oracle [c6Article] = [] ∧
    c6Oracle c6Article.url = some c6Scraped ∧
    c6Article.excerpt.length < 100 ∧
    (make_excerpt c6Scraped.markdown).length > c6Article.excerpt.length :=
  ⟨by decide, by decide, by decide, by decide⟩

/-- C6 (amended): for a record that is not on a blocked site and whose
re-scrape succeeds, a correction is proposed exactly when a truthy
extracted date differs from the stored date or a truthy extracted author
meets an absent stored author; every proposed correction carries only
such date/author changes (no excerpt corrections exist). -/
theorem c6_corrections_iff_date_or_author :
    ∀ (scrape : String → Option Scraped) (a : Article) (s : Scraped),
      is_blocked_site a.url = false →
      scrape a.url = some s →
      ((verify_existing_articles scrape [a] ≠ []) ↔
        ((∃ d, s.date = some d ∧ d ≠ "" ∧ d ≠ a.date) ∨
         (∃ au, s.author = some au ∧ au ≠ "" ∧ optTruthy a.author = false))) ∧
      (∀ corr ∈ verify_existing_articles scrape [a],
        corr.id = a.id ∧ corr.url = a.url ∧
        (∀ p, corr.dateChange = some p →
          p.1 = a.date ∧ s.date = some p.2 ∧ p.2 ≠ "" ∧ p.2 ≠ a.date) ∧
        (∀ au, corr.authorChange = some au →
          s.author = some au ∧ au ≠ "" ∧ optTruthy a.author = false) ∧
        (corr.dateChange ≠ none ∨ corr.authorChange ≠ none)) := by
  intro scrape a s hb hs
  have hv : verify_existing_articles scrape [a] =
      match mkCorrection scrape a with
      | none => []
      | some c => [c] := by
    simp only [verify_existing_articles, List.filterMap_cons, List.filterMap_nil]
    cases mkCorrection scrape a <;> rfl
  unfold mkCorrection at hv
  rw [hb] at hv
  simp only [Bool.false_eq_true, if_false, hs] at hv
  rcases s with ⟨st, sd, sa, sm⟩
  dsimp only at hv
  rcases sd with _ | d <;> rcases sa with _ | au
  · simp at hv
    rw [hv]
    constructor
    · simp
    · simp
  · by_cases hau : (au ≠ "" && !optTruthy a.author) = true
    · simp only [hau, if_true, if_pos] at hv
      simp at hv
      rw [hv]
      simp only [Bool.and_eq_true, decide_eq_true_eq, Bool.not_eq_true'] at hau
      constructor
      · simp [hau]
      · intro corr hc
        simp at hc
        subst hc
        simp [hau]
    · simp only [hau, if_false] at hv
      simp at hv
      rw [hv]
      simp only [Bool.and_eq_true, decide_eq_true_eq, Bool.not_eq_true', not_and] at hau
      constructor
      · constructor
        · intro h; exact absurd rfl h
        · rintro (⟨d2, hd2, _⟩ | ⟨au2, hau2, h1, h2⟩)
          · exact absurd hd2 (by simp)
          · rw [Option.some.injEq] at hau2
            subst hau2
            exact absurd h2 (by simpa using hau h1)
      · simp
  · by_cases hd : (d ≠ "" && d ≠ a.date) = true
    · simp only [hd, if_true] at hv
      simp at hv
      rw [hv]
      simp only [Bool.and_eq_true, decide_eq_true_eq] at hd
      constructor
      · simp [hd]
      · intro corr hc
        simp at hc
        subst hc
        simp [hd]
    · simp only [hd, if_false] at hv
      simp at hv
      rw [hv]
      simp only [Bool.and_eq_true, decide_eq_true_eq, not_and] at hd
      constructor
      · constructor
        · intro h; exact absurd rfl h
        · rintro (⟨d2, hd2, h1, h2⟩ | ⟨au2, hau2, _⟩)
          · rw [Option.some.injEq] at hd2
            subst hd2
            exact absurd h2 (by simpa using hd h1)
          · exact absurd hau2 (by simp)
      · simp
  · by_cases hd : (d ≠ "" && d ≠ a.date) = true
    · by_cases hau : (au ≠ "" && !optTruthy a.author) = true
      · simp only [hd, hau, if_true] at hv
        simp at hv
        rw [hv]
        simp only [Bool.and_eq_true, decide_eq_true_eq] at hd
        simp only [Bool.and_eq_true, decide_eq_true_eq, Bool.not_eq_true'] at hau
        constructor
        · simp [hd]
        · intro corr hc
          simp at hc
          subst hc
          simp [hd, hau]
      · simp only [hd, hau, if_true, if_false] at hv
        simp at hv
        rw [hv]
        simp only [Bool.and_eq_true, decide_eq_true_eq] at hd
        simp only [Bool.and_eq_true, decide_eq_true_eq, Bool.not_eq_true', not_and] at hau
        constructor
        · simp [hd]
        · intro corr hc
          simp at hc
          subst hc
          refine ⟨rfl, rfl, ?_, ?_, ?_⟩
          · intro p hp
            rw [Option.some.injEq] at hp
            subst hp
            exact ⟨rfl, rfl, hd.1, hd.2⟩
          · intro au2 hau2
            exact absurd hau2 (by simp)
          · simp
    · by_cases hau : (au ≠ "" && !optTruthy a.author) = true
      · simp only [hd, hau, if_false, if_true] at hv
        simp at hv
        rw [hv]
        simp only [Bool.and_eq_true, decide_eq_true_eq, not_and] at hd
        simp only [Bool.and_eq_true, decide_eq_true_eq, Bool.not_eq_true'] at hau
        constructor
        · simp [hau]
        · intro corr hc
          simp at hc
          subst hc
          refine ⟨rfl, rfl, ?_, ?_, ?_⟩
          · intro p hp
            exact absurd hp (by simp)
          · intro au2 hau2
            rw [Option.some.injEq] at hau2
            subst hau2
            exact ⟨rfl, hau.1, hau.2⟩
          · simp
      · simp only [hd, hau, if_false] at hv
        simp at hv
        rw [hv]
        simp only [Bool.and_eq_true, decide_eq_true_eq, not_and] at hd
        simp only [Bool.and_eq_true, decide_eq_true_eq, Bool.not_eq_true', not_and] at hau
        constructor
        · constructor
          · intro h; exact absurd rfl h
          · rintro (⟨d2, hd2, h1, h2⟩ | ⟨au2, hau2, h1, h2⟩)
            · rw [Option.some.injEq] at hd2
              subst hd2
              exact absurd h2 (by simpa using hd h1)
            · rw [Option.some.injEq] at hau2
              subst hau2
              exact absurd h2 (by simpa using hau h1)
        · simp

def c6wScraped : Scraped := ⟨"", some "2026-02-03", none, "zz"⟩

def c6wOracle : String → Option Scraped :=
  fun u => if u = "https://gothamist.com/x" then some c6wScraped else none

/-- C6 witness: the characterization applied to a concrete re-scrape whose
date differs from the stored one. -/
theorem c6_corrections_iff_witness :
    verify_existing_articles c6wOracle [c6Article] ≠ [] := by
  obtain ⟨hiff, -⟩ :=
    c6_corrections_iff_date_or_author c6wOracle c6Article c6wScraped (by decide) (by decide)
  exact hiff.mpr (Or.inl ⟨"2026-02-03", rfl, by decide, by decide⟩)

end RerouteNJ

namespace RerouteNJ

/-! ## Claim C5 — id uniqueness -/

/-- Each loop iteration either drops the candidate leaving the used-id set
unchanged, or accepts an article whose id was not yet used and records
it. -/
lemma processCandidate_cases (o : Oracles) (today : String) (used : List String) (c : Candidate) :
    processCandidate o today used c = (none, used) ∨
    ∃ a : Article, processCandidate o today used c = (some a, a.id :: used) ∧
      used.contains a.id = false := by
  unfold processCandidate
  rcases h : o.checkStatus c.url with _ | ⟨st, fu⟩ <;> simp only [h]
  · exact Or.inl trivial
  · by_cases hst : st ≠ 200
    · rw [if_pos hst]
      exact Or.inl rfl
    · rw [if_neg hst]
      rcases hs : o.scrape fu with _ | s <;> simp only [hs]
      · exact Or.inl trivial
      · have hrelcase : is_relevant_content s.markdown = false ∨
            is_relevant_content s.markdown = true := by
          cases is_relevant_content s.markdown <;> simp
        rcases hrelcase with hrel | hrel
        · rw [if_pos (by simp [hrel])]
          exact Or.inl rfl
        · rw [if_neg (by simp [hrel])]
          by_cases hval : validate_article (buildArticle fu today c s) = []
          · rw [if_neg (by simpa using hval)]
            by_cases hid : used.contains
                (if used.contains (buildArticle fu today c s).id = true then
                  (buildArticle fu today c s).id ++ "-" ++ pathSlugSuffix fu
                else (buildArticle fu today c s).id) = true
            · rw [if_pos hid]
              exact Or.inl rfl
            · rw [if_neg hid]
              refine Or.inr ⟨_, rfl, ?_⟩
              simpa using hid
          · rw [if_pos (by simpa using hval)]
            exact Or.inl rfl

lemma processAll_nodup (o : Oracles) (today : String) :
    ∀ (cs : List Candidate) (used : List String),
      ((processAll o today used cs).map Article.id).Nodup ∧
      ∀ i ∈ (processAll o today used cs).map Article.id, i ∉ used := by
  intro cs
  induction cs with
  | nil => intro used; simp [processAll]
  | cons c rest ih =>
    intro used
    rcases processCandidate_cases o today used c with h | ⟨a, h, hfree⟩
    · rw [processAll, h]
      exact ih used
    · rw [processAll, h]
      obtain ⟨ihnd, ihfree⟩ := ih (a.id :: used)
      have hnotin : a.id ∉ (processAll o today (a.id :: used) rest).map Article.id :=
        fun hmem => (ihfree _ hmem) (List.mem_cons_self _ _)
      refine ⟨?_, ?_⟩
      · rw [List.map_cons]
        exact List.nodup_cons.mpr ⟨hnotin, ihnd⟩
      · intro i hi
        rw [List.map_cons] at hi
        rcases List.mem_cons.mp hi with rfl | hi2
        · simpa using hfree
        · intro hiu
          exact (ihfree _ hi2) (List.mem_cons_of_mem _ hiu)

lemma insertByDateDesc_perm (a : Article) : ∀ l, (insertByDateDesc a l).Perm (a :: l) := by
  intro l
  induction l with
  | nil => exact List.Perm.refl _
  | cons b bs ih =>
    unfold insertByDateDesc
    by_cases h : ltChars a.date.data b.date.data = true
    · rw [if_pos h]
      exact (ih.cons b).trans (List.Perm.swap a b bs)
    · rw [if_neg h]

lemma sortByDateDesc_perm : ∀ l : List Article, (sortByDateDesc l).Perm l := by
  intro l
  induction l with
  | nil => exact List.Perm.refl _
  | cons a rest ih =>
    unfold sortByDateDesc
    exact (insertByDateDesc_perm a (sortByDateDesc rest)).trans (ih.cons a)

/-- C5 (amended, discover half): starting from a dataset with pairwise
distinct ids, a discover run never appends a record whose id equals a
pre-existing or earlier-assigned id — one collision is suffixed, a second
collision drops the record — so the resulting persisted dataset still has
pairwise distinct ids. -/
theorem c5_discover_preserves_uniqueness :
    ∀ (o : Oracles) (today now : String) (cov : Coverage) (raw : List Candidate),
      (cov.articles.map Article.id).Nodup →
      ((((runDiscover o today now cov raw).1.getD cov).articles.map Article.id).Nodup) := by
  intro o today now cov raw hnd
  unfold runDiscover
  dsimp only
  split
  · exact hnd
  · split
    · exact hnd
    · obtain ⟨hnew, hfree⟩ :=
        processAll_nodup o today (dedupCandidates raw) (cov.articles.map Article.id)
      have hall : ((cov.articles ++
          processAll o today (cov.articles.map Article.id) (dedupCandidates raw)).map
            Article.id).Nodup := by
        rw [List.map_append]
        refine List.Nodup.append hnd hnew ?_
        intro x hx1 hx2
        exact (hfree x hx2) hx1
      exact ((sortByDateDesc_perm _).map Article.id).nodup_iff.mpr hall

def c5A : Article :=
  ⟨"wnyc-foo-2026-02-10", "A", "https://wnyc.org/a", "WNYC", none,
   "2026-02-10", "news", "E", ["all"], "both"⟩

def c5B : Article :=
  ⟨"wnyc-foo-2026-02-12", "B", "https://wnyc.org/b", "WNYC", none,
   "2026-02-12", "news", "E", ["all"], "both"⟩

def c5Oracle : String → Option Scraped :=
  fun u => if u = "https://wnyc.org/a" then some ⟨"", some "2026-02-12", none, "zz"⟩ else none

/-- C5 counterexample: the verify pass breaks the invariant — starting
from two records with distinct ids, the drift verifier's own corrections
(a date correction whose id rewrite collides with the second record's id)
leave two records with the same id. -/
theorem c5_verify_can_duplicate_ids :
    (([c5A, c5B].map Article.id).Nodup) ∧
    verify_existing_articles c5Oracle [c5A, c5B] =
      [⟨"wnyc-foo-2026-02-10", "https://wnyc.org/a",
        some ("2026-02-10", "2026-02-12"), none⟩] ∧
    ¬ ((apply_corrections [c5A, c5B]
          (verify_existing_articles c5Oracle [c5A, c5B])).1.map Article.id).Nodup :=
  ⟨by decide, by decide, by decide⟩

def c5wOracle : Oracles :=
  ⟨fun u => some (200, u),
   fun _ => some ⟨"", some "2026-02-16", none,
     "The Portal Bridge cutover will divert Montclair-Boonton trains for months."⟩⟩

def c5wCandidate : Candidate :=
  ⟨"https://www.nj.com/transit/2026/02/bar.html", "Portal Bridge cutover begins",
   "", none, "NJ.com"⟩

def c5wCoverage : Coverage :=
  ⟨[⟨"ex-b-2026-01-05", "B", "https://example.com/b", "Example", none,
     "2026-01-05", "news", "E", ["all"], "both"⟩], "2026-01-06T00:00:00Z"⟩

/-- C5 witness: the uniqueness theorem applied to a run that actually
accepts and writes one new article. -/
theorem c5_discover_preserves_uniqueness_witness :
    ((((runDiscover c5wOracle "2026-02-20" "2026-02-20T01:00:00Z" c5wCoverage
        [c5wCandidate]).1.getD c5wCoverage).articles.map Article.id).Nodup) ∧
    (runDiscover c5wOracle "2026-02-20" "2026-02-20T01:00:00Z" c5wCoverage
        [c5wCandidate]).1 ≠ none :=
  ⟨c5_discover_preserves_uniqueness c5wOracle "2026-02-20" "2026-02-20T01:00:00Z"
      c5wCoverage [c5wCandidate] (by decide),
   by decide⟩

end RerouteNJ

namespace RerouteNJ

/-! ## Claim C8 — URL normalization

The development needs arithmetic facts about `Char.toLower` and a
characterization of the `urlparse` model on canonically shaped input.
-/


lemma uint32_toNat_inj {a b : UInt32} (h : a.toNat = b.toNat) : a = b := by
  rcases a with ⟨av⟩; rcases b with ⟨bv⟩
  have : av = bv := by
    apply BitVec.eq_of_toNat_eq
    exact h
  rw [this]

lemma char_toNat_inj {a b : Char} (h : a.toNat = b.toNat) : a = b :=
  Char.ext (uint32_toNat_inj h)

lemma char_toNat_ofNat_valid (n : Nat) (h : n.isValidChar) : (Char.ofNat n).toNat = n := by
  unfold Char.ofNat
  rw [dif_pos h]
  rfl

lemma char_toLower_toNat (c : Char) : (Char.toLower c).toNat =
    if 65 ≤ c.toNat ∧ c.toNat ≤ 90 then c.toNat + 32 else c.toNat := by
  show (let n := c.toNat; if n ≥ 65 ∧ n ≤ 90 then Char.ofNat (n + 32) else c).toNat = _
  dsimp only
  by_cases h : 65 ≤ c.toNat ∧ c.toNat ≤ 90
  · rw [if_pos ⟨h.1, h.2⟩, if_pos h]
    exact char_toNat_ofNat_valid _ (Or.inl (by omega))
  · rw [if_neg (fun hc => h ⟨hc.1, hc.2⟩), if_neg h]

lemma char_isUpper_iff (c : Char) : c.isUpper = true ↔ 65 ≤ c.toNat ∧ c.toNat ≤ 90 := by
  unfold Char.isUpper
  rw [Bool.and_eq_true, decide_eq_true_eq, decide_eq_true_eq]
  exact Iff.rfl

lemma char_isLower_iff (c : Char) : c.isLower = true ↔ 97 ≤ c.toNat ∧ c.toNat ≤ 122 := by
  unfold Char.isLower
  rw [Bool.and_eq_true, decide_eq_true_eq, decide_eq_true_eq]
  exact Iff.rfl

lemma char_isDigit_iff (c : Char) : c.isDigit = true ↔ 48 ≤ c.toNat ∧ c.toNat ≤ 57 := by
  unfold Char.isDigit
  rw [Bool.and_eq_true, decide_eq_true_eq, decide_eq_true_eq]
  exact Iff.rfl

lemma char_isAlpha_iff (c : Char) : c.isAlpha = true ↔
    (65 ≤ c.toNat ∧ c.toNat ≤ 90) ∨ (97 ≤ c.toNat ∧ c.toNat ≤ 122) := by
  unfold Char.isAlpha
  rw [Bool.or_eq_true, char_isUpper_iff, char_isLower_iff]

lemma char_eq_iff_toNat (a b : Char) : a = b ↔ a.toNat = b.toNat :=
  ⟨fun h => h ▸ rfl, char_toNat_inj⟩

lemma toLower_of_not_upper {c : Char} (h : ¬ (65 ≤ c.toNat ∧ c.toNat ≤ 90)) :
    Char.toLower c = c := by
  apply char_toNat_inj
  rw [char_toLower_toNat, if_neg h]

lemma toLower_toNat_of_upper {c : Char} (h : 65 ≤ c.toNat ∧ c.toNat ≤ 90) :
    (Char.toLower c).toNat = c.toNat + 32 := by
  rw [char_toLower_toNat, if_pos h]

lemma toLower_idem (c : Char) : Char.toLower (Char.toLower c) = Char.toLower c := by
  by_cases h : 65 ≤ c.toNat ∧ c.toNat ≤ 90
  · apply toLower_of_not_upper
    rw [toLower_toNat_of_upper h]
    omega
  · rw [toLower_of_not_upper h]
    exact toLower_of_not_upper h

lemma toLower_isAlpha {c : Char} (h : c.isAlpha = true) : (Char.toLower c).isAlpha = true := by
  rcases (char_isAlpha_iff c).mp h with hu | hl
  · rw [char_isAlpha_iff, toLower_toNat_of_upper hu]
    right; omega
  · rw [toLower_of_not_upper (by omega)]
    exact h

lemma toLower_eq_special {x : Char} (hx1 : ¬ (65 ≤ x.toNat ∧ x.toNat ≤ 90))
    (hx2 : ¬ (97 ≤ x.toNat ∧ x.toNat ≤ 122)) (c : Char) :
    Char.toLower c = x ↔ c = x := by
  constructor
  · intro h
    have hn := congrArg Char.toNat h
    rw [char_toLower_toNat] at hn
    by_cases hc : 65 ≤ c.toNat ∧ c.toNat ≤ 90
    · rw [if_pos hc] at hn
      exact absurd hn (by intro he; exact hx2 (by omega))
    · rw [if_neg hc] at hn
      exact char_toNat_inj hn
  · intro h
    subst h
    exact toLower_of_not_upper hx1

lemma schemeChar_toLower {c : Char} (h : schemeChar c = true) :
    schemeChar (Char.toLower c) = true := by
  unfold schemeChar at h ⊢
  simp only [Bool.or_eq_true, decide_eq_true_eq] at h ⊢
  rcases h with (((ha | hd) | hp) | hm) | hdot
  · exact Or.inl (Or.inl (Or.inl (Or.inl (toLower_isAlpha ha))))
  · rw [toLower_of_not_upper (by have := (char_isDigit_iff c).mp hd; omega)]
    exact Or.inl (Or.inl (Or.inl (Or.inr hd)))
  · subst hp
    rw [show Char.toLower '+' = '+' from by decide]
    exact Or.inl (Or.inl (Or.inr rfl))
  · subst hm
    rw [show Char.toLower '-' = '-' from by decide]
    exact Or.inl (Or.inr rfl)
  · subst hdot
    rw [show Char.toLower '.' = '.' from by decide]
    exact Or.inr rfl

lemma schemeChar_ne_colon {c : Char} (h : schemeChar c = true) : c ≠ ':' := by
  intro he
  subst he
  exact absurd h (by decide)

lemma toLower_eq_slash (c : Char) : (Char.toLower c = '/') ↔ (c = '/') :=
  toLower_eq_special (by decide) (by decide) c

lemma toLower_eq_qmark (c : Char) : (Char.toLower c = '?') ↔ (c = '?') :=
  toLower_eq_special (by decide) (by decide) c

lemma toLower_eq_hash (c : Char) : (Char.toLower c = '#') ↔ (c = '#') :=
  toLower_eq_special (by decide) (by decide) c

lemma toLower_eq_semi (c : Char) : (Char.toLower c = ';') ↔ (c = ';') :=
  toLower_eq_special (by decide) (by decide) c

lemma netlocStop_toLower (c : Char) : netlocStop (Char.toLower c) = netlocStop c := by
  unfold netlocStop
  rw [decide_eq_decide.mpr (toLower_eq_slash c), decide_eq_decide.mpr (toLower_eq_qmark c),
    decide_eq_decide.mpr (toLower_eq_hash c)]

lemma map_toLower_idem (l : List Char) :
    (l.map Char.toLower).map Char.toLower = l.map Char.toLower := by
  rw [List.map_map]
  exact List.map_congr_left (fun a _ => toLower_idem a)

lemma takeWhile_all {p : Char → Bool} {l : List Char} (h : ∀ x ∈ l, p x = true) :
    l.takeWhile p = l := by
  have h2 := @List.takeWhile_append_of_pos _ _ _ ([] : List Char) h
  simpa using h2

lemma dropWhile_all {p : Char → Bool} {l : List Char} (h : ∀ x ∈ l, p x = true) :
    l.dropWhile p = [] := by
  have h2 := @List.dropWhile_append_of_pos _ _ _ ([] : List Char) h
  simpa using h2

/-- Well-formedness of a URL scheme as CPython accepts it. -/
def ValidScheme (s : List Char) : Prop :=
  s ≠ [] ∧ (∀ c ∈ s, schemeChar c = true) ∧ (∃ c t, s = c :: t ∧ c.isAlpha = true)

lemma validScheme_toLower {s : List Char} (h : ValidScheme s) :
    ValidScheme (s.map Char.toLower) := by
  obtain ⟨hne, hall, c, t, hs, hc⟩ := h
  subst hs
  refine ⟨by simp, ?_, Char.toLower c, t.map Char.toLower, by simp, toLower_isAlpha hc⟩
  intro x hx
  rw [List.mem_map] at hx
  obtain ⟨y, hy, rfl⟩ := hx
  exact schemeChar_toLower (hall y hy)

lemma splitScheme_canonical {s : List Char} (r : List Char) (h : ValidScheme s) :
    splitScheme (s ++ ':' :: r) = (s.map Char.toLower, r) := by
  obtain ⟨hne, hall, c, t, hs, hc⟩ := h
  subst hs
  unfold splitScheme
  have hpre : ((c :: t) ++ ':' :: r).takeWhile (fun x => x ≠ ':') = c :: t := by
    rw [List.takeWhile_append_of_pos
      (fun a ha => by simpa using schemeChar_ne_colon (hall a ha))]
    simp
  rw [hpre]
  have hlen : (c :: t).length < ((c :: t) ++ ':' :: r).length := by
    rw [List.length_append]
    simp
  rw [if_pos]
  · congr 1
    have he : (c :: t) ++ ':' :: r = ((c :: t) ++ [':']) ++ r := by simp
    rw [he, show (c :: t).length + 1 = ((c :: t) ++ [':']).length from by simp,
      List.drop_left]
  · simp only [Bool.and_eq_true, decide_eq_true_eq, Bool.not_eq_true', List.all_eq_true]
    exact ⟨⟨⟨hlen, by simp⟩, hc⟩, hall⟩

lemma splitNetloc_canonical {n p : List Char} (hn : ∀ c ∈ n, netlocStop c = false)
    (hp : p = [] ∨ ∃ c t, p = c :: t ∧ netlocStop c = true) :
    splitNetloc ('/' :: '/' :: (n ++ p)) = (n, p) := by
  have hpos : ∀ c ∈ n, (!netlocStop c) = true := fun c hc => by rw [hn c hc]; rfl
  show (if ('/' : Char) = '/' ∧ ('/' : Char) = '/' then
      ((n ++ p).takeWhile (fun c => !netlocStop c), (n ++ p).dropWhile (fun c => !netlocStop c))
    else ([], '/' :: '/' :: (n ++ p))) = (n, p)
  rw [if_pos ⟨rfl, rfl⟩]
  rcases hp with rfl | ⟨c, t, rfl, hstop⟩
  · rw [List.append_nil, takeWhile_all hpos, dropWhile_all hpos]
  · rw [List.takeWhile_append_of_pos hpos, List.dropWhile_append_of_pos hpos]
    have hstop2 : (!netlocStop c) = false := by rw [hstop]; rfl
    rw [List.takeWhile_cons, hstop2, List.dropWhile_cons, hstop2]
    simp

lemma splitAtFirst_none {mark : Char} {l : List Char} (h : ∀ c ∈ l, c ≠ mark) :
    splitAtFirst mark l = (l, []) := by
  unfold splitAtFirst
  have hpos : ∀ c ∈ l, (decide (c ≠ mark)) = true := fun c hc => by
    simpa using h c hc
  rw [takeWhile_all hpos, dropWhile_all hpos]
  rfl

lemma splitParamsL_none {l : List Char} (h : l.contains ';' = false) :
    splitParamsL l = (l, []) := by
  unfold splitParamsL
  rw [h]
  rfl

lemma urlparseL_canonical {s n p : List Char} (hs : ValidScheme s)
    (hn : ∀ c ∈ n, netlocStop c = false)
    (hp0 : p = [] ∨ ∃ t, p = '/' :: t)
    (hpq : ∀ c ∈ p, c ≠ '?' ∧ c ≠ '#')
    (hps : p.contains ';' = false) :
    urlparseL (s ++ ':' :: '/' :: '/' :: (n ++ p)) =
      (s.map Char.toLower, n, p, [], [], []) := by
  unfold urlparseL
  rw [splitScheme_canonical ('/' :: '/' :: (n ++ p)) hs]
  dsimp only
  rw [splitNetloc_canonical hn (by
    rcases hp0 with rfl | ⟨t, rfl⟩
    · exact Or.inl rfl
    · exact Or.inr ⟨'/', t, rfl, by decide⟩)]
  dsimp only
  rw [splitAtFirst_none (fun c hc => (hpq c hc).2)]
  dsimp only
  rw [splitAtFirst_none (fun c hc => (hpq c hc).1)]
  dsimp only
  rw [splitParamsL_none hps]

lemma contains_false_iff (l : List Char) (c : Char) : l.contains c = false ↔ c ∉ l := by
  constructor
  · intro h hm
    rw [show l.contains c = l.elem c from rfl, List.elem_iff.mpr hm] at h
    exact absurd h (by simp)
  · intro h
    cases hc : l.contains c
    · rfl
    · exact absurd (List.elem_iff.mp hc) h

lemma splitScheme_fst_valid {l : List Char} (h : (splitScheme l).1 ≠ []) :
    ValidScheme (splitScheme l).1 := by
  unfold splitScheme at h ⊢
  by_cases hc : ((l.takeWhile (fun c => c ≠ ':')).length < l.length &&
      !(l.takeWhile (fun c => c ≠ ':')).isEmpty &&
      (match l.takeWhile (fun c => c ≠ ':') with | c :: _ => c.isAlpha | [] => false) &&
      (l.takeWhile (fun c => c ≠ ':')).all schemeChar) = true
  · rw [if_pos hc] at h ⊢
    dsimp only
    apply validScheme_toLower
    simp only [Bool.and_eq_true] at hc
    obtain ⟨⟨⟨-, hne⟩, hhead⟩, hall⟩ := hc
    refine ⟨by simpa using hne, by simpa [List.all_eq_true] using hall, ?_⟩
    rcases hp : l.takeWhile (fun c => c ≠ ':') with _ | ⟨c, t⟩
    · rw [hp] at hne
      exact absurd hne (by decide)
    · rw [hp] at hhead
      exact ⟨c, t, rfl, hhead⟩
  · rw [if_neg hc] at h
    exact absurd rfl h

lemma splitNetloc_fst_spec (l : List Char) :
    ∀ c ∈ (splitNetloc l).1, netlocStop c = false := by
  intro c hc
  rcases l with _ | ⟨a, _ | ⟨b, rest⟩⟩
  · simp [splitNetloc] at hc
  · simp [splitNetloc] at hc
  · rw [show splitNetloc (a :: b :: rest) = if a = '/' ∧ b = '/' then
        (rest.takeWhile (fun x => !netlocStop x), rest.dropWhile (fun x => !netlocStop x))
      else ([], a :: b :: rest) from rfl] at hc
    by_cases hab : a = '/' ∧ b = '/'
    · rw [if_pos hab] at hc
      have h2 := List.mem_takeWhile_imp hc
      simpa using h2
    · rw [if_neg hab] at hc
      simp at hc

lemma mem_splitAtFirst_fst {mark c : Char} {l : List Char}
    (h : c ∈ (splitAtFirst mark l).1) : c ∈ l ∧ c ≠ mark := by
  unfold splitAtFirst at h
  refine ⟨(List.takeWhile_sublist _).subset h, ?_⟩
  simpa using List.mem_takeWhile_imp h

lemma mem_splitParamsL_fst {c : Char} {l : List Char}
    (h : c ∈ (splitParamsL l).1) : c ∈ l := by
  unfold splitParamsL at h
  by_cases hsemi : (!l.contains ';') = true
  · rw [if_pos hsemi] at h
    exact h
  · rw [if_neg hsemi] at h
    dsimp only at h
    by_cases hseg : ((l.reverse.takeWhile (fun c => c ≠ '/')).reverse.contains ';') = true
    · rw [if_pos hseg] at h
      rcases List.mem_append.mp h with h1 | h1
      · exact List.take_subset _ _ h1
      · have h2 := (List.takeWhile_sublist _).subset h1
        rw [List.mem_reverse] at h2
        have h3 := (List.takeWhile_sublist _).subset h2
        rwa [List.mem_reverse] at h3
    · rw [if_neg hseg] at h
      exact h

lemma urlparseL_path_no_qh (l : List Char) :
    ∀ c ∈ (urlparseL l).2.2.1, c ≠ '?' ∧ c ≠ '#' := by
  intro c hc
  unfold urlparseL at hc
  dsimp only at hc
  have h1 := mem_splitParamsL_fst hc
  have h2 := mem_splitAtFirst_fst h1
  have h3 := mem_splitAtFirst_fst h2.1
  exact ⟨h2.2, h3.2⟩

lemma dropWhile_idem (p : Char → Bool) (l : List Char) :
    (l.dropWhile p).dropWhile p = l.dropWhile p := by
  induction l with
  | nil => rfl
  | cons c t ih =>
    rw [List.dropWhile_cons]
    by_cases h : p c = true
    · rw [if_pos h]
      exact ih
    · rw [if_neg h, List.dropWhile_cons, if_neg h]

lemma rstripSlash_idem (l : List Char) : rstripSlash (rstripSlash l) = rstripSlash l := by
  unfold rstripSlash
  rw [List.reverse_reverse, dropWhile_idem]

lemma rstripSlash_map_toLower (l : List Char) :
    rstripSlash (l.map Char.toLower) = (rstripSlash l).map Char.toLower := by
  unfold rstripSlash
  have hpred : ((fun c => decide (c = '/')) ∘ Char.toLower) = (fun c : Char => decide (c = '/')) :=
    funext fun c => decide_eq_decide.mpr (toLower_eq_slash c)
  rw [List.reverse_map, List.dropWhile_map, hpred, List.reverse_map]

lemma rstripSlash_initial (l : List Char) : rstripSlash l <+: l := by
  unfold rstripSlash
  have h := List.reverse_prefix.mpr
    (List.dropWhile_suffix (l := l.reverse) (fun c => decide (c = '/')))
  rwa [List.reverse_reverse] at h

lemma rstripSlash_shape {p : List Char} (h : p = [] ∨ ∃ t, p = '/' :: t) :
    rstripSlash p = [] ∨ ∃ t, rstripSlash p = '/' :: t := by
  rcases h with rfl | ⟨t, rfl⟩
  · left; rfl
  · rcases hr : rstripSlash ('/' :: t) with _ | ⟨c, rest⟩
    · left; rfl
    · right
      obtain ⟨r, hr2⟩ := rstripSlash_initial ('/' :: t)
      rw [hr] at hr2
      have hr3 : c :: (rest ++ r) = '/' :: t := by simpa using hr2
      injection hr3 with h1 h2
      exact ⟨rest, by rw [h1]⟩

lemma normalizeL_eq (l : List Char) : normalizeL l =
    ((urlparseL l).1 ++ ':' :: '/' :: '/' ::
      ((urlparseL l).2.1 ++ rstripSlash (urlparseL l).2.2.1)).map Char.toLower := rfl

lemma normalizeL_inner (l : List Char) : normalizeL l =
    (urlparseL l).1.map Char.toLower ++ ':' :: '/' :: '/' ::
      ((urlparseL l).2.1.map Char.toLower ++
        (rstripSlash (urlparseL l).2.2.1).map Char.toLower) := by
  rw [normalizeL_eq]
  simp only [List.map_append, List.map_cons,
    show Char.toLower ':' = ':' from by decide,
    show Char.toLower '/' = '/' from by decide]

lemma normalizeL_idem {l : List Char}
    (hs : (urlparseL l).1 ≠ [])
    (hp0 : (urlparseL l).2.2.1 = [] ∨ ∃ t, (urlparseL l).2.2.1 = '/' :: t)
    (hsemi : (urlparseL l).2.2.1.contains ';' = false) :
    normalizeL (normalizeL l) = normalizeL l := by
  have hvs : ValidScheme (urlparseL l).1 := splitScheme_fst_valid hs
  have hnspec : ∀ c ∈ (urlparseL l).2.1, netlocStop c = false := splitNetloc_fst_spec _
  have hpspec := urlparseL_path_no_qh l
  have hrpsub : ∀ c ∈ rstripSlash (urlparseL l).2.2.1, c ∈ (urlparseL l).2.2.1 :=
    fun c hc => (rstripSlash_initial _).subset hc
  have hparse : urlparseL (normalizeL l) =
      (((urlparseL l).1.map Char.toLower).map Char.toLower,
       (urlparseL l).2.1.map Char.toLower,
       (rstripSlash (urlparseL l).2.2.1).map Char.toLower, [], [], []) := by
    rw [normalizeL_inner]
    refine urlparseL_canonical (validScheme_toLower hvs) ?_ ?_ ?_ ?_
    · intro c hc
      rw [List.mem_map] at hc
      obtain ⟨y, hy, rfl⟩ := hc
      rw [netlocStop_toLower]
      exact hnspec y hy
    · rcases rstripSlash_shape hp0 with h | ⟨t, h⟩
      · left; rw [h]; rfl
      · right
        exact ⟨t.map Char.toLower, by
          rw [h, List.map_cons, show Char.toLower '/' = '/' from by decide]⟩
    · intro c hc
      rw [List.mem_map] at hc
      obtain ⟨y, hy, rfl⟩ := hc
      obtain ⟨hq, hh⟩ := hpspec y (hrpsub y hy)
      exact ⟨fun he => hq ((toLower_eq_qmark y).mp he),
        fun he => hh ((toLower_eq_hash y).mp he)⟩
    · rw [contains_false_iff]
      intro hm
      rw [List.mem_map] at hm
      obtain ⟨y, hy, hty⟩ := hm
      have hy2 : y = ';' := (toLower_eq_semi y).mp hty
      subst hy2
      exact (contains_false_iff _ _).mp hsemi (hrpsub _ hy)
  rw [normalizeL_inner (normalizeL l), hparse]
  dsimp only
  rw [rstripSlash_map_toLower, rstripSlash_idem, map_toLower_idem, map_toLower_idem,
    map_toLower_idem, map_toLower_idem]
  exact (normalizeL_inner l).symm

lemma splitAtFirst_at_mark {mark : Char} {a b : List Char} (h : ∀ c ∈ a, c ≠ mark) :
    splitAtFirst mark (a ++ mark :: b) = (a, b) := by
  unfold splitAtFirst
  have hpos : ∀ c ∈ a, (decide (c ≠ mark)) = true := fun c hc => by simpa using h c hc
  rw [List.takeWhile_append_of_pos hpos, List.dropWhile_append_of_pos hpos]
  have hm : (decide (mark ≠ mark)) = false := by simp
  rw [List.takeWhile_cons, hm, List.dropWhile_cons, hm]
  simp

lemma urlparseL_canonical_q {s n pq q : List Char} (hs : ValidScheme s)
    (hn : ∀ c ∈ n, netlocStop c = false)
    (hp0 : pq = [] ∨ ∃ t, pq = '/' :: t)
    (hpq : ∀ c ∈ pq, c ≠ '?' ∧ c ≠ '#')
    (hps : pq.contains ';' = false)
    (hq : ∀ c ∈ q, c ≠ '#') :
    urlparseL (s ++ ':' :: '/' :: '/' :: (n ++ (pq ++ '?' :: q))) =
      (s.map Char.toLower, n, pq, [], q, []) := by
  unfold urlparseL
  rw [splitScheme_canonical ('/' :: '/' :: (n ++ (pq ++ '?' :: q))) hs]
  dsimp only
  rw [splitNetloc_canonical hn (by
    rcases hp0 with rfl | ⟨t, rfl⟩
    · exact Or.inr ⟨'?', q, rfl, by decide⟩
    · exact Or.inr ⟨'/', t ++ '?' :: q, by simp, by decide⟩)]
  dsimp only
  rw [splitAtFirst_none (l := pq ++ '?' :: q) (by
    intro c hc
    rcases List.mem_append.mp hc with h1 | h1
    · exact (hpq c h1).2
    · rcases List.mem_cons.mp h1 with rfl | h2
      · decide
      · exact hq c h2)]
  dsimp only
  rw [splitAtFirst_at_mark (fun c hc => (hpq c hc).1)]
  dsimp only
  rw [splitParamsL_none hps]

lemma normalizeL_collapse {s n : List Char} (hs : ValidScheme s)
    (hn : ∀ c ∈ n, netlocStop c = false) :
    normalizeL (s ++ ':' :: '/' :: '/' :: (n ++ ('/' :: 'a' :: '?' :: 'q' :: '=' :: '1' :: []))) =
    normalizeL (s ++ ':' :: '/' :: '/' :: (n ++ ('/' :: 'a' :: '/' :: []))) := by
  have hpq : ∀ c ∈ ['/', 'a'], c ≠ '?' ∧ c ≠ '#' := by decide
  have h1 := urlparseL_canonical_q (q := ['q', '=', '1']) hs hn
    (Or.inr ⟨['a'], rfl⟩) hpq (by decide) (by decide)
  have h2 := urlparseL_canonical (p := ['/', 'a', '/']) hs hn
    (Or.inr ⟨['a', '/'], rfl⟩) (by decide) (by decide)
  rw [normalizeL_eq, normalizeL_eq]
  rw [show (['/', 'a'] : List Char) ++ '?' :: ['q', '=', '1'] =
    ['/', 'a', '?', 'q', '=', '1'] from rfl] at h1
  rw [h1, h2]
  dsimp only
  rw [show rstripSlash ['/', 'a'] = ['/', 'a'] from rfl,
    show rstripSlash ['/', 'a', '/'] = ['/', 'a'] from rfl]

/-- Decidable form of scheme well-formedness. -/
def validSchemeB (s : List Char) : Bool :=
  match s with
  | [] => false
  | c :: _ => c.isAlpha && s.all schemeChar

lemma validScheme_of_b {s : List Char} (h : validSchemeB s = true) : ValidScheme s := by
  rcases s with _ | ⟨c, t⟩
  · exact absurd h (by decide)
  · rw [show validSchemeB (c :: t) = (c.isAlpha && (c :: t).all schemeChar) from rfl,
      Bool.and_eq_true, List.all_eq_true] at h
    exact ⟨by simp, h.2, c, t, rfl, h.1⟩

lemma urlparse_scheme_data (u : String) : (urlparse u).scheme.data = (urlparseL u.data).1 := rfl

lemma urlparse_path_data (u : String) : (urlparse u).path.data = (urlparseL u.data).2.2.1 := rfl

lemma normalize_url_data (u : String) : normalize_url u = String.mk (normalizeL u.data) := rfl

lemma containsSeg_singleton (c : Char) : ∀ l : List Char, containsSeg [c] l = l.contains c := by
  intro l
  induction l with
  | nil => rfl
  | cons a t ih =>
    rw [show containsSeg [c] (a :: t) = ([c].isPrefixOf (a :: t) || containsSeg [c] t) from rfl,
      ih, List.contains_cons]
    simp [List.isPrefixOf]

lemma isPrefixOf_singleton (c : Char) (l : List Char) :
    [c].isPrefixOf l = true ↔ ∃ t, l = c :: t := by
  rcases l with _ | ⟨a, t⟩
  · simp [List.isPrefixOf]
  · rw [show [c].isPrefixOf (a :: t) = (c == a && ([] : List Char).isPrefixOf t) from rfl]
    simp only [List.isPrefixOf, Bool.and_true, beq_iff_eq]
    constructor
    · rintro rfl
      exact ⟨t, rfl⟩
    · rintro ⟨t2, he⟩
      injection he with h1 h2
      exact h1.symm

lemma string_data_eq_nil_iff (s : String) : s.data = [] ↔ s = "" := by
  cases s with
  | mk d =>
    constructor
    · intro h
      rw [show (String.mk d).data = d from rfl] at h
      rw [h]
    · intro h
      rw [h]

/-- C8 (amended): URL normalization lower-cases scheme, host and path,
strips the query string and removes trailing slashes; it is idempotent for
every URL whose parse yields a non-empty scheme and a path that is empty
or slash-initial and semicolon-free (in particular every well-formed
absolute http(s) URL), and for every valid scheme and host the URLs
`scheme://host/a?q=1` and `scheme://host/a/` normalize to the same dedup
key. -/
theorem c8_normalize_properties :
    (∀ u : String,
      (urlparse u).scheme ≠ "" →
      ((urlparse u).path = "" ∨ pyStartsWith (urlparse u).path "/" = true) →
      pyIn ";" (urlparse u).path = false →
      normalize_url (normalize_url u) = normalize_url u) ∧
    (∀ sch host : String, validSchemeB sch.data = true →
      host.data.all (fun c => !netlocStop c) = true →
      normalize_url (sch ++ "://" ++ host ++ "/a?q=1") =
        normalize_url (sch ++ "://" ++ host ++ "/a/")) := by
  constructor
  · intro u h1 h2 h3
    rw [normalize_url_data u, normalize_url_data (String.mk (normalizeL u.data))]
    congr 1
    apply normalizeL_idem
    · intro he
      apply h1
      rw [← string_data_eq_nil_iff, urlparse_scheme_data, he]
    · rcases h2 with h2 | h2
      · left
        rw [← urlparse_path_data, h2]
      · right
        have hp := (isPrefixOf_singleton '/' (urlparse u).path.data).mp h2
        rwa [urlparse_path_data] at hp
    · have hc : containsSeg [';'] (urlparse u).path.data = false := h3
      rwa [containsSeg_singleton, urlparse_path_data] at hc
  · intro sch host hsch hhost
    have hs := validScheme_of_b hsch
    have hn : ∀ c ∈ host.data, netlocStop c = false := by
      intro c hc
      have hb := List.all_eq_true.mp hhost c hc
      simpa using hb
    rw [normalize_url_data, normalize_url_data]
    congr 1
    have hd1 : (sch ++ "://" ++ host ++ "/a?q=1").data =
        sch.data ++ ':' :: '/' :: '/' ::
          (host.data ++ ('/' :: 'a' :: '?' :: 'q' :: '=' :: '1' :: [])) := by
      simp [String.data_append]
    have hd2 : (sch ++ "://" ++ host ++ "/a/").data =
        sch.data ++ ':' :: '/' :: '/' :: (host.data ++ ('/' :: 'a' :: '/' :: [])) := by
      simp [String.data_append]
    rw [hd1, hd2]
    exact normalizeL_collapse hs hn

/-- C8 counterexample: `normalize_url` is not idempotent on every URL —
a scheme-less URL gains a spurious `://` prefix on each pass, and a
semicolon in the last path segment exposed by slash-stripping is parsed
as params only on the second pass. -/
theorem c8_not_idempotent_on_all_urls :
    normalize_url (normalize_url "example.com/a") ≠ normalize_url "example.com/a" ∧
    normalize_url "example.com/a" = "://example.com/a" ∧
    normalize_url (normalize_url "http://x/a/b;c/") ≠ normalize_url "http://x/a/b;c/" :=
  ⟨by decide, by decide, by decide⟩

/-- C8 witness: idempotence on a concrete absolute URL, and the collapse
of the two claimed URL spellings to one key. -/
theorem c8_normalize_properties_witness :
    normalize_url (normalize_url "HTTP://EX.com/A//") = normalize_url "HTTP://EX.com/A//" ∧
    normalize_url "http://x/a?q=1" = normalize_url "http://x/a/" :=
  ⟨c8_normalize_properties.1 "HTTP://EX.com/A//" (by decide) (by decide) (by decide),
   c8_normalize_properties.2 "http" "x" (by decide) (by decide)⟩

end RerouteNJ
